import Mathlib

/-!
yaml4c: event-to-tree builder and accessor layer

A shallow embedding of `src/yaml4c.c`.

* A C text (`char *`, NUL-terminated) is a `String`; its characters stand for
  the bytes before the terminator, so a text holds no NUL.  A nullable
  `char *` is an `Option String`.
* A node pointer is an `Option y4c_node_t`.  The child list `head .. tail`
  linked through `next` / `prev` is the `List` of the children in link order.
* Memory allocation (`calloc`, `strdup`) is taken to succeed.
* The event producer of the YAML library (`yaml_parser_parse`) is a finite
  list of outcomes handed out one per call; when the list is used up, every
  further call hands out the empty event `YAML_NO_EVENT`, as the library does
  after stream-end and after a failure.
-/

set_option autoImplicit false

namespace Yaml4c

/-! ## Data model (`include/yaml4c.h`) -/

/-- The node kinds of `y4c_type_t`. -/
inductive y4c_type_t where
  | Y4C_NULL
  | Y4C_SCALAR
  | Y4C_SEQUENCE
  | Y4C_MAPPING
deriving DecidableEq

/-- The node record `y4c_node_t`: kind, optional key, optional value text and
the children in link order. -/
inductive y4c_node_t where
  | mk (type : y4c_type_t) (key : Option String) (value : Option String)
      (children : List y4c_node_t)

namespace y4c_node_t

/-- Field `type`. -/
def type : y4c_node_t → y4c_type_t
  | mk t _ _ _ => t

/-- Field `key`. -/
def key : y4c_node_t → Option String
  | mk _ k _ _ => k

/-- Field `value`. -/
def value : y4c_node_t → Option String
  | mk _ _ v _ => v

/-- The children reached from `head` through `next`. -/
def children : y4c_node_t → List y4c_node_t
  | mk _ _ _ cs => cs

end y4c_node_t

open y4c_type_t

/-! ## C library functions used by the accessors -/

/-- The sign of `strcmp(a, b)`: bytes are compared in order, and the
terminator of the shorter text precedes every byte of the longer one. -/
def strcmp : List Char → List Char → Int
  | [], [] => 0
  | [], _ :: _ => -1
  | _ :: _, [] => 1
  | a :: as, b :: bs =>
    if a.toNat < b.toNat then -1
    else if b.toNat < a.toNat then 1
    else strcmp as bs

/-- The code of `tolower(c)` in the C locale: only `A`..`Z` change. -/
def tolower (c : Char) : Nat :=
  if 65 ≤ c.toNat ∧ c.toNat ≤ 90 then c.toNat + 32 else c.toNat

/-- The sign of `strcasecmp(a, b)`: `strcmp` on the lowered bytes. -/
def strcasecmp : List Char → List Char → Int
  | [], [] => 0
  | [], _ :: _ => -1
  | _ :: _, [] => 1
  | a :: as, b :: bs =>
    if tolower a < tolower b then -1
    else if tolower b < tolower a then 1
    else strcasecmp as bs

/-- The test `isspace(c)` in the C locale: space and the codes 9 to 13. -/
def isspace (c : Char) : Bool :=
  c.toNat = 32 || (9 ≤ c.toNat && c.toNat ≤ 13)

/-- The test `isdigit(c)`. -/
def isdigit (c : Char) : Bool :=
  48 ≤ c.toNat && c.toNat ≤ 57

/-- The digit loop of `strtol` in base 10: accumulates the leading digits. -/
def strtol_digits : Nat → List Char → Nat
  | acc, [] => acc
  | acc, c :: cs => if isdigit c then strtol_digits (10 * acc + (c.toNat - 48)) cs else acc

/-- The sign step of `strtol`: an optional `+` or `-`, then the digits. -/
def strtol_signed : List Char → Int
  | [] => 0
  | c :: cs =>
    if c = '-' then -(strtol_digits 0 cs : Int)
    else if c = '+' then (strtol_digits 0 cs : Int)
    else (strtol_digits 0 (c :: cs) : Int)

/-- The function `strtol(s, NULL, 10)` on a 64-bit `long`: leading white space
is skipped and a value out of range is clamped. -/
def strtol (s : List Char) : Int :=
  max (-(2 : Int) ^ 63) (min ((2 : Int) ^ 63 - 1) (strtol_signed (s.dropWhile isspace)))

/-- The conversion of a `long` to a 32-bit `int`: reduction modulo `2 ^ 32`
into `[-2 ^ 31, 2 ^ 31)`. -/
def long_to_int (n : Int) : Int :=
  (n + 2 ^ 31) % 2 ^ 32 - 2 ^ 31

/-- The function `atoi(s)`, which is `(int) strtol(s, NULL, 10)`. -/
def atoi (s : List Char) : Int :=
  long_to_int (strtol s)

/-! ## Accessor layer -/

/-- The scan loop of `y4c_get`: the first node of the chain whose key is
present and compares equal to `key`. -/
def y4c_get_loop (key : String) : List y4c_node_t → Option y4c_node_t
  | [] => none
  | curr :: next =>
    match curr.key with
    | some k => if strcmp k.data key.data = 0 then some curr else y4c_get_loop key next
    | none => y4c_get_loop key next

/-- The function `y4c_get`. -/
def y4c_get (node : Option y4c_node_t) (key : Option String) : Option y4c_node_t :=
  match node, key with
  | some n, some k => if n.type ≠ Y4C_MAPPING then none else y4c_get_loop k n.children
  | _, _ => none

/-- The walk loop of `y4c_at` with its counter `i`.  For an `int` index the
counter stays in the `int` range: the walk stops at `i = index` or at the end
of a chain shorter than `index`. -/
def y4c_at_loop (index : Int) : Int → List y4c_node_t → Option y4c_node_t
  | _, [] => none
  | i, curr :: next => if i = index then some curr else y4c_at_loop index (i + 1) next

/-- The function `y4c_at`. -/
def y4c_at (node : Option y4c_node_t) (index : Int) : Option y4c_node_t :=
  match node with
  | some n => if n.type ≠ Y4C_SEQUENCE ∨ index < 0 then none else y4c_at_loop index 0 n.children
  | none => none

/-- The function `y4c_get_str`; the default `def` may be a null pointer. -/
def y4c_get_str (node : Option y4c_node_t) (key : Option String) (dflt : Option String) :
    Option String :=
  let target := match key with
    | some k => y4c_get node (some k)
    | none => node
  match target with
  | some t =>
    if t.type = Y4C_SCALAR then
      match t.value with
      | some v => some v
      | none => dflt
    else dflt
  | none => dflt

/-- The function `y4c_get_int`. -/
def y4c_get_int (node : Option y4c_node_t) (key : Option String) (dflt : Int) : Int :=
  match y4c_get_str node key none with
  | some val => atoi val.data
  | none => dflt

/-- The function `y4c_get_bool`. -/
def y4c_get_bool (node : Option y4c_node_t) (key : Option String) (dflt : Bool) : Bool :=
  match y4c_get_str node key none with
  | some val =>
    if strcasecmp val.data "true".data = 0 ∨ strcasecmp val.data "yes".data = 0 ∨
        strcasecmp val.data "on".data = 0 ∨ strcmp val.data "1".data = 0 then true
    else if strcasecmp val.data "false".data = 0 ∨ strcasecmp val.data "no".data = 0 ∨
        strcasecmp val.data "off".data = 0 ∨ strcmp val.data "0".data = 0 then false
    else dflt
  | none => dflt

/-! ## The event producer (`yaml.h`) -/

/-- The event kinds of `yaml_event_type_t`; a scalar event carries the text
`data.scalar.value`. -/
inductive yaml_event_t where
  | YAML_NO_EVENT
  | YAML_STREAM_START_EVENT
  | YAML_STREAM_END_EVENT
  | YAML_DOCUMENT_START_EVENT
  | YAML_DOCUMENT_END_EVENT
  | YAML_ALIAS_EVENT
  | YAML_SCALAR_EVENT (value : String)
  | YAML_SEQUENCE_START_EVENT
  | YAML_SEQUENCE_END_EVENT
  | YAML_MAPPING_START_EVENT
  | YAML_MAPPING_END_EVENT
deriving DecidableEq

/-- What one call of `yaml_parser_parse` does: it hands out an event, or it
fails and records a problem text (possibly null) with its line and column. -/
inductive yaml_outcome_t where
  | event (e : yaml_event_t)
  | failure (problem : Option String) (line : Nat) (column : Nat)
deriving DecidableEq

/-- The producer state `yaml_parser_t`: the outcomes of the calls still to
come, and the fields `problem` and `problem_mark` of the last failure. -/
structure yaml_parser_t where
  pending : List yaml_outcome_t
  problem : Option String
  problem_line : Nat
  problem_column : Nat
deriving DecidableEq

/-- The call `yaml_parser_parse(parser, &event)`: `none` is the return value 0.
Once the outcomes are used up, that is after stream-end or after a failure,
every call returns 1 with the zeroed event, whose kind is `YAML_NO_EVENT`. -/
def yaml_parser_parse (parser : yaml_parser_t) : Option yaml_event_t × yaml_parser_t :=
  match parser.pending with
  | [] => (some yaml_event_t.YAML_NO_EVENT, parser)
  | yaml_outcome_t.event e :: rest => (some e, { parser with pending := rest })
  | yaml_outcome_t.failure p l c :: rest => (none, ⟨rest, p, l, c⟩)

/-- A freshly initialised producer for the given outcomes. -/
def yaml_parser_initialize (outcomes : List yaml_outcome_t) : yaml_parser_t :=
  ⟨outcomes, none, 0, 0⟩

/-! ## Tree builder -/

open yaml_event_t

/-- The function `y4c_new_node`: a zeroed node of the given kind. -/
def y4c_new_node (type : y4c_type_t) : y4c_node_t :=
  y4c_node_t.mk type none none []

/-- The function `y4c_append_child`: the child becomes the new tail. -/
def y4c_append_child (parent child : y4c_node_t) : y4c_node_t :=
  y4c_node_t.mk parent.type parent.key parent.value (parent.children ++ [child])

/-- The assignment `node->value = v`. -/
def y4c_set_value (node : y4c_node_t) (v : String) : y4c_node_t :=
  y4c_node_t.mk node.type node.key (some v) node.children

/-- The assignment `child->key = key`. -/
def y4c_set_key (child : y4c_node_t) (key : String) : y4c_node_t :=
  y4c_node_t.mk child.type (some key) child.value child.children

mutual
/-- The function `y4c_parse_event`: the node built from `input_event` (or no
node) and the producer state it leaves.  `fuel` bounds the depth of the calls
and loop rounds; `none` means it ran out. -/
def y4c_parse_event (fuel : Nat) (parser : yaml_parser_t) (input_event : yaml_event_t) :
    Option (Option y4c_node_t × yaml_parser_t) :=
  match fuel with
  | 0 => none
  | fuel + 1 =>
    match input_event with
    | YAML_SCALAR_EVENT value =>
      some (some (y4c_set_value (y4c_new_node Y4C_SCALAR) value), parser)
    | YAML_SEQUENCE_START_EVENT =>
      match y4c_parse_sequence fuel parser (y4c_new_node Y4C_SEQUENCE) with
      | some (node, parser) => some (some node, parser)
      | none => none
    | YAML_MAPPING_START_EVENT =>
      match y4c_parse_mapping fuel parser (y4c_new_node Y4C_MAPPING) with
      | some (node, parser) => some (some node, parser)
      | none => none
    | _ => some (none, parser)
/-- The `while (1)` loop of the sequence case, started with `node`. -/
def y4c_parse_sequence (fuel : Nat) (parser : yaml_parser_t) (node : y4c_node_t) :
    Option (y4c_node_t × yaml_parser_t) :=
  match fuel with
  | 0 => none
  | fuel + 1 =>
    match yaml_parser_parse parser with
    | (none, parser) => some (node, parser)
    | (some YAML_SEQUENCE_END_EVENT, parser) => some (node, parser)
    | (some event, parser) =>
      match y4c_parse_event fuel parser event with
      | none => none
      | some (some child, parser) => y4c_parse_sequence fuel parser (y4c_append_child node child)
      | some (none, parser) => y4c_parse_sequence fuel parser node
/-- The `while (1)` loop of the mapping case, started with `node`. -/
def y4c_parse_mapping (fuel : Nat) (parser : yaml_parser_t) (node : y4c_node_t) :
    Option (y4c_node_t × yaml_parser_t) :=
  match fuel with
  | 0 => none
  | fuel + 1 =>
    match yaml_parser_parse parser with
    | (none, parser) => some (node, parser)
    | (some YAML_MAPPING_END_EVENT, parser) => some (node, parser)
    | (some key_event, parser) =>
      let key : Option String :=
        match key_event with
        | YAML_SCALAR_EVENT value => some value
        | _ => none
      match yaml_parser_parse parser with
      | (none, parser) => some (node, parser)
      | (some val_event, parser) =>
        match y4c_parse_event fuel parser val_event with
        | none => none
        | some (some child, parser) =>
          let child := match key with
            | some k => y4c_set_key child k
            | none => child
          y4c_parse_mapping fuel parser (y4c_append_child node child)
        | some (none, parser) => y4c_parse_mapping fuel parser node
end

/-! ## Loader -/

/-- The error record `y4c_error_t`. -/
structure y4c_error_t where
  message : String
  line : Nat
  column : Nat
deriving DecidableEq

/-- The function `y4c_set_error`: `snprintf` keeps at most `cap - 1` characters
of the text, where `cap` is the size of the `message` array. -/
def y4c_set_error (cap : Nat) (msg : Option String) (line col : Nat) : y4c_error_t :=
  ⟨String.mk ((msg.getD "Unknown error").data.take (cap - 1)), line, col⟩

/-- The `while (!done)` loop of `y4c_load_str`, with its variables `root` and
`err`. -/
def y4c_load_loop (fuel : Nat) (cap : Nat) (parser : yaml_parser_t)
    (root : Option y4c_node_t) (err : y4c_error_t) :
    Option (Option y4c_node_t × y4c_error_t) :=
  match fuel with
  | 0 => none
  | fuel + 1 =>
    match yaml_parser_parse parser with
    | (none, parser) =>
      some (none, y4c_set_error cap parser.problem parser.problem_line parser.problem_column)
    | (some YAML_STREAM_END_EVENT, _) => some (root, err)
    | (some YAML_DOCUMENT_START_EVENT, parser) =>
      match yaml_parser_parse parser with
      | (some root_event, parser) =>
        match y4c_parse_event fuel parser root_event with
        | some (root, _) => some (root, err)
        | none => none
      | (none, parser) => y4c_load_loop fuel cap parser root err
    | (some _, parser) => y4c_load_loop fuel cap parser root err

/-- The function `y4c_load_str` on the producer set up for the input text
(its initialisation is taken to succeed): the returned root and the contents
of the error record, which is zeroed first.  `cap` is the size of the
`message` array of `y4c_error_t`, which the header at hand does not declare. -/
def y4c_load_str (fuel : Nat) (cap : Nat) (parser : yaml_parser_t) :
    Option (Option y4c_node_t × y4c_error_t) :=
  y4c_load_loop fuel cap parser none ⟨"", 0, 0⟩


/-- The variable `key` of the mapping loop once `key_event` has been read: the
text of a scalar event, null for any other event. -/
def mapping_key (key_event : yaml_event_t) : Option String :=
  match key_event with
  | YAML_SCALAR_EVENT value => some value
  | _ => none

/-- The statement `if (key) child->key = key;` of the mapping loop. -/
def attach_key (key : Option String) (child : y4c_node_t) : y4c_node_t :=
  match key with
  | some k => y4c_set_key child k
  | none => child

/-! ## Notions of the specification -/

/-- The target a typed helper works on: the node itself when the key is
absent, otherwise the result of `y4c_get`. -/
def resolved_target (node : Option y4c_node_t) (key : Option String) : Option y4c_node_t :=
  match key with
  | none => node
  | some k => y4c_get node (some k)

/-- Two texts are equal ignoring letter case. -/
def eq_ignore_case (a b : String) : Prop :=
  a.data.map Char.toLower = b.data.map Char.toLower

instance eq_ignore_case_decidable (a b : String) : Decidable (eq_ignore_case a b) :=
  inferInstanceAs (Decidable (a.data.map Char.toLower = b.data.map Char.toLower))

/-- The number a run of decimal digits denotes. -/
def decimal_value (ds : List Char) : Nat :=
  Nat.ofDigits 10 (ds.reverse.map (fun c => c.toNat - 48))

/-- A text has a leading numeric prefix: optional white space, an optional
sign, then at least one decimal digit. -/
def has_leading_number (s : List Char) : Prop :=
  ∃ (ws sg : List Char) (d : Char) (rest : List Char),
    s = ws ++ sg ++ d :: rest ∧ (∀ c ∈ ws, isspace c = true) ∧
    (sg = [] ∨ sg = ['+'] ∨ sg = ['-']) ∧ isdigit d = true

/-- Decidable form of `has_leading_number` on a text without leading white
space: a digit, or a sign followed by a digit. -/
def starts_number : List Char → Bool
  | [] => false
  | [c] => isdigit c
  | c :: d :: _ => isdigit c || ((c = '+' || c = '-') && isdigit d)

mutual
/-- The well-nested event sequence of a tree: a Scalar is one scalar event, a
Sequence is sequence-start, its elements, sequence-end, and a Mapping is
mapping-start, then for each child its key as a scalar event followed by the
child, mapping-end.  A Null node has no events. -/
def to_events : y4c_node_t → List yaml_event_t
  | y4c_node_t.mk Y4C_SCALAR _ v _ => [YAML_SCALAR_EVENT (v.getD "")]
  | y4c_node_t.mk Y4C_SEQUENCE _ _ cs =>
    YAML_SEQUENCE_START_EVENT :: (to_events_elements cs ++ [YAML_SEQUENCE_END_EVENT])
  | y4c_node_t.mk Y4C_MAPPING _ _ cs =>
    YAML_MAPPING_START_EVENT :: (to_events_entries cs ++ [YAML_MAPPING_END_EVENT])
  | y4c_node_t.mk Y4C_NULL _ _ _ => []
/-- The events of the elements of a Sequence, in order. -/
def to_events_elements : List y4c_node_t → List yaml_event_t
  | [] => []
  | c :: cs => to_events c ++ to_events_elements cs
/-- The events of the entries of a Mapping, in order: key, then value. -/
def to_events_entries : List y4c_node_t → List yaml_event_t
  | [] => []
  | c :: cs => YAML_SCALAR_EVENT (c.key.getD "") :: (to_events c ++ to_events_entries cs)
end

mutual
/-- A tree made of Scalar, Sequence and Mapping nodes: a Scalar has a text and
no children, a Sequence or Mapping has no text, the elements of a Sequence
carry no key and the children of a Mapping are keyed by a text. -/
def well_formed : y4c_node_t → Bool
  | y4c_node_t.mk Y4C_SCALAR _ v cs => v.isSome && cs.isEmpty
  | y4c_node_t.mk Y4C_SEQUENCE _ v cs => v.isNone && well_formed_elements cs
  | y4c_node_t.mk Y4C_MAPPING _ v cs => v.isNone && well_formed_entries cs
  | y4c_node_t.mk Y4C_NULL _ _ _ => false
/-- The elements of a Sequence are well formed and carry no key. -/
def well_formed_elements : List y4c_node_t → Bool
  | [] => true
  | c :: cs => c.key.isNone && well_formed c && well_formed_elements cs
/-- The children of a Mapping are well formed and keyed by a text. -/
def well_formed_entries : List y4c_node_t → Bool
  | [] => true
  | c :: cs => c.key.isSome && well_formed c && well_formed_entries cs
end

/-- The producer that hands out the given events and after them only empty
events. -/
def producer_of (events : List yaml_event_t) : yaml_parser_t :=
  yaml_parser_initialize (events.map yaml_outcome_t.event)

/-- Running the tree builder on an event sequence: `y4c_parse_event` is called
on the first event, with the producer holding the remaining ones. -/
def build_tree (fuel : Nat) (events : List yaml_event_t) :
    Option (Option y4c_node_t × yaml_parser_t) :=
  match events with
  | [] => none
  | e :: rest => y4c_parse_event fuel (producer_of rest) e

mutual
/-- Keys sit only on direct children of Mapping nodes: below this node, every
child of a node that is not a Mapping carries no key. -/
def keys_only_in_mappings : y4c_node_t → Bool
  | y4c_node_t.mk ty _ _ cs => children_keys_ok (decide (ty = Y4C_MAPPING)) cs
/-- The children of a node, which is a Mapping or not as `in_mapping` says,
carry a key only when it is one, and the same holds below each of them. -/
def children_keys_ok (in_mapping : Bool) : List y4c_node_t → Bool
  | [] => true
  | c :: cs =>
    (in_mapping || c.key.isNone) && keys_only_in_mappings c && children_keys_ok in_mapping cs
end

mutual
/-- The shape of a node and of every node below it: the kind is Scalar,
Sequence or Mapping, a Scalar has no children, and a Sequence or Mapping has
no value text. -/
def shape_ok : y4c_node_t → Bool
  | y4c_node_t.mk Y4C_NULL _ _ _ => false
  | y4c_node_t.mk Y4C_SCALAR _ _ cs => cs.isEmpty
  | y4c_node_t.mk Y4C_SEQUENCE _ v cs => v.isNone && shape_ok_all cs
  | y4c_node_t.mk Y4C_MAPPING _ v cs => v.isNone && shape_ok_all cs
/-- Every node of the list has the shape `shape_ok`. -/
def shape_ok_all : List y4c_node_t → Bool
  | [] => true
  | c :: cs => shape_ok c && shape_ok_all cs
end

/-- An event kind the builder turns into a node: scalar, sequence-start or
mapping-start. -/
def is_supported (e : yaml_event_t) : Bool :=
  match e with
  | YAML_SCALAR_EVENT _ => true
  | YAML_SEQUENCE_START_EVENT => true
  | YAML_MAPPING_START_EVENT => true
  | _ => false

/-- What stands at an element position of a sequence: a tree, or one event of
an unsupported kind. -/
inductive sequence_item_t where
  | element (t : y4c_node_t)
  | unsupported (e : yaml_event_t)

/-- What stands at an entry position of a mapping: a keyed tree, or a key
followed by one event of an unsupported kind. -/
inductive mapping_item_t where
  | entry (t : y4c_node_t)
  | unsupported (key : String) (e : yaml_event_t)

/-- An element is a well-formed tree without key; an unsupported item is an
event of an unsupported kind other than sequence-end. -/
def sequence_item_ok : sequence_item_t → Bool
  | sequence_item_t.element t => well_formed t && t.key.isNone
  | sequence_item_t.unsupported e => !is_supported e && decide (e ≠ YAML_SEQUENCE_END_EVENT)

/-- An entry is a well-formed tree keyed by a text; an unsupported item has a
value event of an unsupported kind. -/
def mapping_item_ok : mapping_item_t → Bool
  | mapping_item_t.entry t => well_formed t && t.key.isSome
  | mapping_item_t.unsupported _ e => !is_supported e

/-- The events of the items of a sequence, in order. -/
def sequence_items_events : List sequence_item_t → List yaml_event_t
  | [] => []
  | sequence_item_t.element t :: rest => to_events t ++ sequence_items_events rest
  | sequence_item_t.unsupported e :: rest => e :: sequence_items_events rest

/-- The events of the items of a mapping, in order: key, then value. -/
def mapping_items_events : List mapping_item_t → List yaml_event_t
  | [] => []
  | mapping_item_t.entry t :: rest =>
    YAML_SCALAR_EVENT (t.key.getD "") :: (to_events t ++ mapping_items_events rest)
  | mapping_item_t.unsupported k e :: rest =>
    YAML_SCALAR_EVENT k :: e :: mapping_items_events rest

/-- The supported elements among the items of a sequence, in order. -/
def sequence_items_nodes : List sequence_item_t → List y4c_node_t
  | [] => []
  | sequence_item_t.element t :: rest => t :: sequence_items_nodes rest
  | sequence_item_t.unsupported _ :: rest => sequence_items_nodes rest

/-- The supported entries among the items of a mapping, in order. -/
def mapping_items_nodes : List mapping_item_t → List y4c_node_t
  | [] => []
  | mapping_item_t.entry t :: rest => t :: mapping_items_nodes rest
  | mapping_item_t.unsupported _ _ :: rest => mapping_items_nodes rest

/-! ## Sample trees -/

/-- A mapping with a duplicate key: `b: 2`, `a: 1`, `a: 3`. -/
def dup_mapping : y4c_node_t :=
  y4c_node_t.mk Y4C_MAPPING none none
    [y4c_node_t.mk Y4C_SCALAR (some "b") (some "2") [],
     y4c_node_t.mk Y4C_SCALAR (some "a") (some "1") [],
     y4c_node_t.mk Y4C_SCALAR (some "a") (some "3") []]

/-- The sequence `[8080, 9090]`. -/
def ports_sequence : y4c_node_t :=
  y4c_node_t.mk Y4C_SEQUENCE none none
    [y4c_node_t.mk Y4C_SCALAR none (some "8080") [],
     y4c_node_t.mk Y4C_SCALAR none (some "9090") []]

/-- A Scalar whose text is empty, as built for `key: ""`. -/
def empty_scalar : y4c_node_t :=
  y4c_node_t.mk Y4C_SCALAR none (some "") []

/-- The Scalar with the given text. -/
def scalar_node (v : String) : y4c_node_t :=
  y4c_node_t.mk Y4C_SCALAR none (some v) []

/-- A Scalar that nevertheless has a keyed child. -/
def scalar_with_child : y4c_node_t :=
  y4c_node_t.mk Y4C_SCALAR none (some "x") [y4c_node_t.mk Y4C_SCALAR (some "k") (some "v") []]

/-- A Mapping that nevertheless has an unkeyed child. -/
def mapping_with_element : y4c_node_t :=
  y4c_node_t.mk Y4C_MAPPING none none [y4c_node_t.mk Y4C_SCALAR none (some "v") []]

/-- A mapping `port: "8080"`, `hosts: [a]`. -/
def config_mapping : y4c_node_t :=
  y4c_node_t.mk Y4C_MAPPING none none
    [y4c_node_t.mk Y4C_SCALAR (some "port") (some "8080") [],
     y4c_node_t.mk Y4C_SEQUENCE (some "hosts") none [y4c_node_t.mk Y4C_SCALAR none (some "a") []]]

/-- The tree of `app: {name: MyApp, version: 1.0, enabled: true, ports: [8080, 9090]}`. -/
def app_tree : y4c_node_t :=
  y4c_node_t.mk Y4C_MAPPING none none
    [y4c_node_t.mk Y4C_MAPPING (some "app") none
      [y4c_node_t.mk Y4C_SCALAR (some "name") (some "MyApp") [],
       y4c_node_t.mk Y4C_SCALAR (some "version") (some "1.0") [],
       y4c_node_t.mk Y4C_SCALAR (some "enabled") (some "true") [],
       y4c_node_t.mk Y4C_SEQUENCE (some "ports") none
        [y4c_node_t.mk Y4C_SCALAR none (some "8080") [],
         y4c_node_t.mk Y4C_SCALAR none (some "9090") []]]]

/-- A producer that fails in the middle of a sequence: stream-start,
document-start, sequence-start, the scalar `a`, then a failure. -/
def failing_in_sequence : yaml_parser_t :=
  yaml_parser_initialize
    [yaml_outcome_t.event YAML_STREAM_START_EVENT,
     yaml_outcome_t.event YAML_DOCUMENT_START_EVENT,
     yaml_outcome_t.event YAML_SEQUENCE_START_EVENT,
     yaml_outcome_t.event (YAML_SCALAR_EVENT "a"),
     yaml_outcome_t.failure (some "found unexpected end of stream") 1 2]

/-- The child `app` of `app_tree`. -/
def app_node : y4c_node_t :=
  y4c_node_t.mk Y4C_MAPPING (some "app") none
    [y4c_node_t.mk Y4C_SCALAR (some "name") (some "MyApp") [],
     y4c_node_t.mk Y4C_SCALAR (some "version") (some "1.0") [],
     y4c_node_t.mk Y4C_SCALAR (some "enabled") (some "true") [],
     y4c_node_t.mk Y4C_SEQUENCE (some "ports") none
      [y4c_node_t.mk Y4C_SCALAR none (some "8080") [],
       y4c_node_t.mk Y4C_SCALAR none (some "9090") []]]

/-- The child `ports` of `app_node`. -/
def app_ports : y4c_node_t :=
  y4c_node_t.mk Y4C_SEQUENCE (some "ports") none
    [y4c_node_t.mk Y4C_SCALAR none (some "8080") [],
     y4c_node_t.mk Y4C_SCALAR none (some "9090") []]

/-- The event stream of the document
`app: {name: "MyApp", version: 1.0, enabled: true, ports: [8080, 9090]}`. -/
def scenario_a : yaml_parser_t :=
  producer_of
    [YAML_STREAM_START_EVENT, YAML_DOCUMENT_START_EVENT,
     YAML_MAPPING_START_EVENT, YAML_SCALAR_EVENT "app",
     YAML_MAPPING_START_EVENT,
     YAML_SCALAR_EVENT "name", YAML_SCALAR_EVENT "MyApp",
     YAML_SCALAR_EVENT "version", YAML_SCALAR_EVENT "1.0",
     YAML_SCALAR_EVENT "enabled", YAML_SCALAR_EVENT "true",
     YAML_SCALAR_EVENT "ports",
     YAML_SEQUENCE_START_EVENT, YAML_SCALAR_EVENT "8080", YAML_SCALAR_EVENT "9090",
     YAML_SEQUENCE_END_EVENT,
     YAML_MAPPING_END_EVENT, YAML_MAPPING_END_EVENT,
     YAML_DOCUMENT_END_EVENT, YAML_STREAM_END_EVENT]

/-- The event stream of an empty input: stream-start, stream-end. -/
def empty_input : yaml_parser_t :=
  producer_of [YAML_STREAM_START_EVENT, YAML_STREAM_END_EVENT]

/-- A mapping whose first key is a sequence: `? [a] : v`. -/
def sequence_as_key : List yaml_event_t :=
  [YAML_MAPPING_START_EVENT,
   YAML_SEQUENCE_START_EVENT, YAML_SCALAR_EVENT "a", YAML_SEQUENCE_END_EVENT,
   YAML_SCALAR_EVENT "v",
   YAML_MAPPING_END_EVENT]

/-- The remaining events of `k: [a]`, `n: v` after its mapping-start. -/
def small_mapping_events : yaml_parser_t :=
  producer_of
    [YAML_SCALAR_EVENT "k", YAML_SEQUENCE_START_EVENT, YAML_SCALAR_EVENT "a",
     YAML_SEQUENCE_END_EVENT, YAML_SCALAR_EVENT "n", YAML_SCALAR_EVENT "v",
     YAML_MAPPING_END_EVENT]

/-- The tree of `k: [a]`, `n: v`. -/
def small_mapping : y4c_node_t :=
  y4c_node_t.mk Y4C_MAPPING none none
    [y4c_node_t.mk Y4C_SEQUENCE (some "k") none [y4c_node_t.mk Y4C_SCALAR none (some "a") []],
     y4c_node_t.mk Y4C_SCALAR (some "n") (some "v") []]

/-- The items of the sequence `[a, *x, b]`, whose second element is an alias. -/
def items_with_alias : List sequence_item_t :=
  [sequence_item_t.element (scalar_node "a"),
   sequence_item_t.unsupported YAML_ALIAS_EVENT,
   sequence_item_t.element (scalar_node "b")]

/-- The items of the mapping `k1: v1`, `k2: *x`, `k3: v3`, whose second value
is an alias. -/
def entries_with_alias : List mapping_item_t :=
  [mapping_item_t.entry (y4c_node_t.mk Y4C_SCALAR (some "k1") (some "v1") []),
   mapping_item_t.unsupported "k2" YAML_ALIAS_EVENT,
   mapping_item_t.entry (y4c_node_t.mk Y4C_SCALAR (some "k3") (some "v3") [])]

/-- The producer after the outer sequence-start of `[[a, <failure>`: the inner
sequence-start, the scalar `a`, then a failure. -/
def failing_in_nested_sequence : yaml_parser_t :=
  yaml_parser_initialize
    [yaml_outcome_t.event YAML_SEQUENCE_START_EVENT,
     yaml_outcome_t.event (YAML_SCALAR_EVENT "a"),
     yaml_outcome_t.failure (some "found unexpected end of stream") 1 4]

/-- The events from the root mapping-start on of a document whose first key is
a mapping, `? {x: 1}` then `: v`, up to the stream-end. -/
def mapping_as_key : List yaml_event_t :=
  [YAML_MAPPING_START_EVENT,
   YAML_MAPPING_START_EVENT, YAML_SCALAR_EVENT "x", YAML_SCALAR_EVENT "1",
   YAML_MAPPING_END_EVENT,
   YAML_SCALAR_EVENT "v",
   YAML_MAPPING_END_EVENT,
   YAML_DOCUMENT_END_EVENT, YAML_STREAM_END_EVENT]

/-! ## Facts about the C library models -/

theorem char_toNat_inj {a b : Char} (h : a.toNat = b.toNat) : a = b := by
  have ha := Char.ofNat_toNat a
  rw [h, Char.ofNat_toNat] at ha
  exact ha.symm

theorem strcmp_eq_zero_iff (a b : List Char) : strcmp a b = 0 ↔ a = b := by
  induction a generalizing b with
  | nil => cases b <;> simp [strcmp]
  | cons x xs ih =>
    cases b with
    | nil => simp [strcmp]
    | cons y ys =>
      simp only [strcmp]
      by_cases h1 : x.toNat < y.toNat
      · have hxy : x ≠ y := fun h => by subst h; omega
        simp [h1, hxy]
      · by_cases h2 : y.toNat < x.toNat
        · have hxy : x ≠ y := fun h => by subst h; omega
          simp [h1, h2, hxy]
        · have hxy : x = y := char_toNat_inj (by omega)
          simp [h1, h2, hxy, ih]

theorem strcmp_string_eq_zero_iff (a b : String) : strcmp a.data b.data = 0 ↔ a = b := by
  rw [strcmp_eq_zero_iff]
  constructor
  · intro h
    cases a
    cases b
    simp_all
  · intro h
    rw [h]

/-! ## Accessors: lookup by key and by index -/

theorem y4c_get_loop_eq_find (k : String) (l : List y4c_node_t) :
    y4c_get_loop k l = l.find? (fun c => decide (c.key = some k)) := by
  induction l with
  | nil => rfl
  | cons c cs ih =>
    simp only [y4c_get_loop, List.find?]
    cases hk : c.key with
    | none => simp [ih]
    | some k0 =>
      by_cases h : k0 = k
      · simp [h, (strcmp_string_eq_zero_iff k k).2 rfl]
      · have h0 : ¬ strcmp k0.data k.data = 0 := fun e => h ((strcmp_string_eq_zero_iff _ _).1 e)
        simp [h, h0, ih]

theorem y4c_at_loop_lt (index i : Int) (l : List y4c_node_t) (h : index < i) :
    y4c_at_loop index i l = none := by
  induction l generalizing i with
  | nil => rfl
  | cons c cs ih =>
    have hne : ¬ i = index := by omega
    simp only [y4c_at_loop, hne, if_false]
    exact ih (i + 1) (by omega)

theorem y4c_at_loop_nat (i : Int) (l : List y4c_node_t) (n : Nat) :
    y4c_at_loop (i + n) i l = l[n]? := by
  induction l generalizing i n with
  | nil => rfl
  | cons c cs ih =>
    cases n with
    | zero => simp [y4c_at_loop]
    | succ m =>
      have hne : ¬ i = i + ((m + 1 : Nat) : Int) := by omega
      simp only [y4c_at_loop, hne, if_false, List.getElem?_cons_succ]
      have e : i + ((m + 1 : Nat) : Int) = (i + 1) + (m : Int) := by omega
      rw [e]
      exact ih (i + 1) m

/-- C1: on a Mapping node `y4c_get` returns the first child, in insertion
order, whose key equals `k` exactly (every earlier child has another key or
none), also when later children repeat the key; it returns absence when no
child has key `k`. -/
theorem y4c_get_first_match (m : y4c_node_t) (k : String) (hm : m.type = Y4C_MAPPING) :
    (∀ (pre : List y4c_node_t) (c : y4c_node_t) (post : List y4c_node_t),
        m.children = pre ++ c :: post → c.key = some k → (∀ x ∈ pre, x.key ≠ some k) →
        y4c_get (some m) (some k) = some c) ∧
    ((∀ c ∈ m.children, c.key ≠ some k) → y4c_get (some m) (some k) = none) := by
  have hget : y4c_get (some m) (some k) =
      m.children.find? (fun c => decide (c.key = some k)) := by
    simp [y4c_get, hm, y4c_get_loop_eq_find]
  constructor
  · intro pre c post hc hk hpre
    rw [hget, hc, List.find?_append]
    have h1 : List.find? (fun c => decide (c.key = some k)) pre = none := by
      rw [List.find?_eq_none]
      intro x hx
      simpa using hpre x hx
    simp [h1, hk]
  · intro hall
    rw [hget, List.find?_eq_none]
    intro x hx
    simpa using hall x hx

theorem y4c_get_first_match_witness :
    y4c_get (some dup_mapping) (some "a") =
      some (y4c_node_t.mk Y4C_SCALAR (some "a") (some "1") []) :=
  (y4c_get_first_match dup_mapping "a" rfl).1
    [y4c_node_t.mk Y4C_SCALAR (some "b") (some "2") []]
    (y4c_node_t.mk Y4C_SCALAR (some "a") (some "1") [])
    [y4c_node_t.mk Y4C_SCALAR (some "a") (some "3") []]
    rfl rfl (by intro x hx; simp at hx; subst hx; decide)

/-- C2: on a Sequence node with `n` children `y4c_at` returns the `i`-th child
in insertion order for every `0 <= i < n`, and absence for every negative
index and every index `>= n`, in particular for `-1` and `n`. -/
theorem y4c_at_index (s : y4c_node_t) (hs : s.type = Y4C_SEQUENCE) :
    (∀ (i : Nat) (h : i < s.children.length),
        y4c_at (some s) (i : Int) = some (s.children[i])) ∧
    (∀ idx : Int, idx < 0 ∨ (s.children.length : Int) ≤ idx → y4c_at (some s) idx = none) ∧
    y4c_at (some s) (-1) = none ∧ y4c_at (some s) (s.children.length : Int) = none := by
  have hnat : ∀ n : Nat, y4c_at (some s) (n : Int) = s.children[n]? := by
    intro n
    have h0 : ¬ ((n : Int) < 0) := by omega
    simp only [y4c_at, hs, ne_eq, not_true_eq_false, h0, or_self, if_false]
    have := y4c_at_loop_nat 0 s.children n
    simpa using this
  have hout : ∀ idx : Int, idx < 0 ∨ (s.children.length : Int) ≤ idx →
      y4c_at (some s) idx = none := by
    intro idx h
    by_cases hneg : idx < 0
    · simp [y4c_at, hneg]
    · obtain ⟨n, rfl⟩ := Int.eq_ofNat_of_zero_le (by omega : 0 ≤ idx)
      rw [hnat n]
      have : s.children.length ≤ n := by omega
      simp [this]
  refine ⟨?_, hout, hout _ (Or.inl (by omega)), hout _ (Or.inr (le_refl _))⟩
  intro i h
  rw [hnat i]
  simp [h]

theorem y4c_at_index_witness :
    y4c_at (some ports_sequence) (1 : Nat) =
      some (y4c_node_t.mk Y4C_SCALAR none (some "9090") []) ∧
    y4c_at (some ports_sequence) (-1) = none ∧ y4c_at (some ports_sequence) 2 = none :=
  ⟨(y4c_at_index ports_sequence rfl).1 1 (by decide),
   (y4c_at_index ports_sequence rfl).2.2.1,
   (y4c_at_index ports_sequence rfl).2.1 2 (Or.inr (by decide))⟩

/-! ## Numeric conversion -/

theorem isspace_of_isdigit {c : Char} (h : isdigit c = true) : isspace c = false := by
  simp only [isdigit, Bool.and_eq_true, decide_eq_true_eq] at h
  simp only [isspace, Bool.or_eq_false_iff, Bool.and_eq_false_iff, decide_eq_false_iff_not]
  omega

theorem not_minus_of_isdigit {c : Char} (h : isdigit c = true) : c ≠ '-' := by
  intro e
  subst e
  exact absurd h (by decide)

theorem not_plus_of_isdigit {c : Char} (h : isdigit c = true) : c ≠ '+' := by
  intro e
  subst e
  exact absurd h (by decide)

theorem dropWhile_isspace_append (ws w : List Char) (hws : ∀ c ∈ ws, isspace c = true) :
    (ws ++ w).dropWhile isspace = w.dropWhile isspace :=
  List.dropWhile_append_of_pos hws

theorem starts_number_of_split (sg : List Char) (d : Char) (rest : List Char)
    (hsg : sg = [] ∨ sg = ['+'] ∨ sg = ['-']) (hd : isdigit d = true) :
    (sg ++ d :: rest).dropWhile isspace = sg ++ d :: rest ∧
    starts_number (sg ++ d :: rest) = true := by
  have hds : isspace d = false := isspace_of_isdigit hd
  have hplus : isspace '+' = false := by decide
  have hminus : isspace '-' = false := by decide
  rcases hsg with h | h | h
  · subst h
    constructor
    · simp [List.dropWhile_cons, hds]
    · cases rest <;> simp [starts_number, hd]
  · subst h
    constructor
    · simp [List.dropWhile_cons, hplus]
    · simp [starts_number, hd]
  · subst h
    constructor
    · simp [List.dropWhile_cons, hminus]
    · simp [starts_number, hd]

theorem has_leading_number_iff (s : List Char) :
    has_leading_number s ↔ starts_number (s.dropWhile isspace) = true := by
  constructor
  · rintro ⟨ws, sg, d, rest, hs, hws, hsg, hd⟩
    have h := starts_number_of_split sg d rest hsg hd
    rw [hs, List.append_assoc, dropWhile_isspace_append ws _ hws, h.1]
    exact h.2
  · intro h
    have hsplit : s = s.takeWhile isspace ++ s.dropWhile isspace :=
      (List.takeWhile_append_dropWhile isspace s).symm
    have hws : ∀ c ∈ s.takeWhile isspace, isspace c = true := fun c hc =>
      List.mem_takeWhile_imp hc
    generalize s.dropWhile isspace = w at h hsplit
    match w, h with
    | [c], h =>
      exact ⟨s.takeWhile isspace, [], c, [], by simpa using hsplit, hws, Or.inl rfl,
        by simpa [starts_number] using h⟩
    | c :: d :: rest, h =>
      simp only [starts_number, Bool.or_eq_true, Bool.and_eq_true, decide_eq_true_eq] at h
      rcases h with h | ⟨h1 | h1, h2⟩
      · exact ⟨s.takeWhile isspace, [], c, d :: rest, by simpa using hsplit, hws,
          Or.inl rfl, h⟩
      · subst h1
        exact ⟨s.takeWhile isspace, ['+'], d, rest, by simpa using hsplit, hws,
          Or.inr (Or.inl rfl), h2⟩
      · subst h1
        exact ⟨s.takeWhile isspace, ['-'], d, rest, by simpa using hsplit, hws,
          Or.inr (Or.inr rfl), h2⟩

theorem strtol_digits_of_not_digit (acc : Nat) (w : List Char)
    (h : ∀ c, w.head? = some c → isdigit c = false) : strtol_digits acc w = acc := by
  cases w with
  | nil => rfl
  | cons c cs => simp [strtol_digits, h c rfl]

theorem strtol_signed_eq_zero (w : List Char) (h : starts_number w = false) :
    strtol_signed w = 0 := by
  match w, h with
  | [], _ => rfl
  | [c], h =>
    have hc : isdigit c = false := by simpa [starts_number] using h
    simp only [strtol_signed]
    split_ifs <;> simp [strtol_digits, hc]
  | c :: d :: rest, h =>
    simp only [starts_number, Bool.or_eq_false_iff, Bool.and_eq_false_iff, Bool.or_eq_false_iff,
      decide_eq_false_iff_not] at h
    obtain ⟨hc, hsd⟩ := h
    simp only [strtol_signed]
    split_ifs with h1 h2
    · have hd : isdigit d = false := by
        rcases hsd with h | h
        · exact absurd h1 h.2
        · exact h
      simp [strtol_digits, hd]
    · have hd : isdigit d = false := by
        rcases hsd with h | h
        · exact absurd h2 h.1
        · exact h
      simp [strtol_digits, hd]
    · simp [strtol_digits, hc]

theorem long_to_int_strtol_zero : long_to_int (max (-(2 : Int) ^ 63) (min ((2 : Int) ^ 63 - 1) 0)) = 0 := by
  decide

theorem atoi_of_not_numeric (s : List Char) (h : ¬ has_leading_number s) : atoi s = 0 := by
  have hs : starts_number (s.dropWhile isspace) = false := by
    rw [has_leading_number_iff] at h
    simpa using h
  simp only [atoi, strtol, strtol_signed_eq_zero _ hs]
  exact long_to_int_strtol_zero

theorem decimal_value_cons (c : Char) (ds : List Char) :
    decimal_value (c :: ds) = (c.toNat - 48) * 10 ^ ds.length + decimal_value ds := by
  simp only [decimal_value, List.reverse_cons, List.map_append, List.map_cons, List.map_nil,
    Nat.ofDigits_append, Nat.ofDigits_singleton, List.length_map, List.length_reverse]
  ring

theorem strtol_digits_append (ds rest : List Char) (hds : ∀ c ∈ ds, isdigit c = true)
    (hrest : ∀ c, rest.head? = some c → isdigit c = false) (acc : Nat) :
    strtol_digits acc (ds ++ rest) = acc * 10 ^ ds.length + decimal_value ds := by
  induction ds generalizing acc with
  | nil => simp [strtol_digits_of_not_digit acc rest hrest, decimal_value]
  | cons c cs ih =>
    have hc : isdigit c = true := hds c (List.mem_cons_self _ _)
    have hcs : ∀ x ∈ cs, isdigit x = true := fun x hx => hds x (List.mem_cons_of_mem _ hx)
    show strtol_digits acc (c :: (cs ++ rest)) = _
    simp only [strtol_digits, hc, if_true]
    rw [ih hcs, decimal_value_cons, List.length_cons]
    ring

theorem long_to_int_of_int_range (n : Int) (hlo : -(2 : Int) ^ 31 ≤ n) (hhi : n ≤ (2 : Int) ^ 31 - 1) :
    long_to_int (max (-(2 : Int) ^ 63) (min ((2 : Int) ^ 63 - 1) n)) = n := by
  have h1 : min ((2 : Int) ^ 63 - 1) n = n := min_eq_right (by norm_num at hhi ⊢; omega)
  have h2 : max (-(2 : Int) ^ 63) n = n := max_eq_right (by norm_num at hlo ⊢; omega)
  rw [h1, h2]
  unfold long_to_int
  norm_num at hlo hhi ⊢
  omega

theorem atoi_of_numeric (ws sg ds rest : List Char) (n : Int)
    (hws : ∀ c ∈ ws, isspace c = true) (hsg : sg = [] ∨ sg = ['+'] ∨ sg = ['-'])
    (hne : ds ≠ []) (hds : ∀ c ∈ ds, isdigit c = true)
    (hrest : ∀ c, rest.head? = some c → isdigit c = false)
    (hn : n = if sg = ['-'] then -(decimal_value ds : Int) else (decimal_value ds : Int))
    (hlo : -(2 : Int) ^ 31 ≤ n) (hhi : n ≤ (2 : Int) ^ 31 - 1) :
    atoi (ws ++ sg ++ ds ++ rest) = n := by
  obtain ⟨d, ds1, rfl⟩ := List.exists_cons_of_ne_nil hne
  have hd : isdigit d = true := hds d (List.mem_cons_self _ _)
  have hdrop : (ws ++ sg ++ (d :: ds1) ++ rest).dropWhile isspace = sg ++ (d :: ds1) ++ rest := by
    have e : ws ++ sg ++ (d :: ds1) ++ rest = ws ++ (sg ++ d :: (ds1 ++ rest)) := by simp
    rw [e, dropWhile_isspace_append ws _ hws, (starts_number_of_split sg d _ hsg hd).1]
    simp
  have hval : strtol_signed (sg ++ (d :: ds1) ++ rest) = n := by
    have hdig := strtol_digits_append (d :: ds1) rest hds hrest 0
    rcases hsg with h | h | h
    · subst h
      have h1 : d ≠ '-' := not_minus_of_isdigit hd
      have h2 : d ≠ '+' := not_plus_of_isdigit hd
      simp only [List.nil_append, List.cons_append, strtol_signed, h1, h2, if_false]
      rw [← List.cons_append, hdig, hn]
      simp
    · subst h
      have h1 : ¬ ('+' = '-') := by decide
      simp only [List.cons_append, List.nil_append, strtol_signed, h1, if_false, if_true]
      rw [← List.cons_append, hdig, hn]
      simp
    · subst h
      simp only [List.cons_append, List.nil_append, strtol_signed, if_true]
      rw [← List.cons_append, hdig, hn]
      simp
  simp only [atoi, strtol, hdrop, hval]
  exact long_to_int_of_int_range n hlo hhi

/-! ## Case-insensitive comparison -/

theorem char_toNat_ofNat_small (n : Nat) (h : n < 55296) : (Char.ofNat n).toNat = n := by
  have hv : n.isValidChar := Or.inl h
  unfold Char.ofNat
  rw [dif_pos hv]
  rfl

theorem tolower_eq_toLower (c : Char) : tolower c = (Char.toLower c).toNat := by
  unfold tolower Char.toLower
  by_cases h : 65 ≤ c.toNat ∧ c.toNat ≤ 90
  · simp only [ge_iff_le, h, and_self, if_true]
    exact (char_toNat_ofNat_small _ (by omega)).symm
  · simp only [ge_iff_le, h, if_false]

theorem strcasecmp_eq_zero_iff (a b : List Char) :
    strcasecmp a b = 0 ↔ a.map Char.toLower = b.map Char.toLower := by
  induction a generalizing b with
  | nil => cases b <;> simp [strcasecmp]
  | cons x xs ih =>
    cases b with
    | nil => simp [strcasecmp]
    | cons y ys =>
      simp only [strcasecmp, List.map_cons, List.cons.injEq]
      by_cases h1 : tolower x < tolower y
      · have hxy : x.toLower ≠ y.toLower := fun h => by
          rw [tolower_eq_toLower, tolower_eq_toLower, h] at h1
          omega
        simp [h1, hxy]
      · by_cases h2 : tolower y < tolower x
        · have hxy : x.toLower ≠ y.toLower := fun h => by
            rw [tolower_eq_toLower, tolower_eq_toLower, h] at h2
            omega
          simp [h1, h2, hxy]
        · have hxy : x.toLower = y.toLower := char_toNat_inj (by
            rw [← tolower_eq_toLower, ← tolower_eq_toLower]
            omega)
          simp [h1, h2, hxy, ih]

theorem strcasecmp_eq_zero_iff_eq_ignore_case (a b : String) :
    strcasecmp a.data b.data = 0 ↔ eq_ignore_case a b :=
  strcasecmp_eq_zero_iff a.data b.data

theorem strcmp_digit_iff_strcasecmp (l : List Char) (c0 : Char) (h0 : isdigit c0 = true) :
    strcmp l [c0] = 0 ↔ strcasecmp l [c0] = 0 := by
  simp only [isdigit, Bool.and_eq_true, decide_eq_true_eq] at h0
  match l with
  | [] => simp [strcmp, strcasecmp]
  | [c] =>
    simp only [strcmp, strcasecmp, tolower]
    split_ifs <;> first | omega | simp
  | c :: d :: rest =>
    simp only [strcmp, strcasecmp, tolower]
    split_ifs <;> first | omega | simp

theorem strcmp_one_iff (v : String) : strcmp v.data "1".data = 0 ↔ eq_ignore_case v "1" := by
  rw [← strcasecmp_eq_zero_iff_eq_ignore_case]
  exact strcmp_digit_iff_strcasecmp v.data '1' (by decide)

theorem strcmp_zero_iff (v : String) : strcmp v.data "0".data = 0 ↔ eq_ignore_case v "0" := by
  rw [← strcasecmp_eq_zero_iff_eq_ignore_case]
  exact strcmp_digit_iff_strcasecmp v.data '0' (by decide)

/-! ## Typed helpers -/

theorem y4c_get_str_eq (node : Option y4c_node_t) (key dflt : Option String) :
    y4c_get_str node key dflt =
      match resolved_target node key with
      | some t => if t.type = Y4C_SCALAR then (match t.value with
          | some v => some v
          | none => dflt) else dflt
      | none => dflt := by
  cases key <;> rfl

theorem y4c_get_str_scalar (node : Option y4c_node_t) (key dflt : Option String)
    (t : y4c_node_t) (v : String) (ht : resolved_target node key = some t)
    (hty : t.type = Y4C_SCALAR) (hv : t.value = some v) :
    y4c_get_str node key dflt = some v := by
  rw [y4c_get_str_eq, ht]
  simp [hty, hv]

theorem y4c_get_str_default (node : Option y4c_node_t) (key dflt : Option String)
    (h : ∀ t, resolved_target node key = some t → t.type ≠ Y4C_SCALAR ∨ t.value = none) :
    y4c_get_str node key dflt = dflt := by
  rw [y4c_get_str_eq]
  cases ht : resolved_target node key with
  | none => rfl
  | some t =>
    rcases h t ht with h1 | h1
    · simp [h1]
    · simp [h1]

/-- C5 (counterexample): a Scalar whose text is empty is resolved with no key,
and `y4c_get_str` returns the empty text, not the default. -/
theorem empty_text_is_returned_counterexample :
    resolved_target (some empty_scalar) none = some empty_scalar ∧
    empty_scalar.type = Y4C_SCALAR ∧ empty_scalar.value = some "" ∧
    y4c_get_str (some empty_scalar) none (some "fallback") = some "" ∧
    y4c_get_str (some empty_scalar) none (some "fallback") ≠ some "fallback" :=
  ⟨rfl, rfl, rfl, rfl, by decide⟩

/-- C5 (amended): `y4c_get_str` returns the text of the resolved target when
that target is a Scalar carrying a text, whether the text is empty or not, and
the default in every other case (no target, a target that is not a Scalar, or
a Scalar without text). -/
theorem y4c_get_str_value_or_default (node : Option y4c_node_t) (key dflt : Option String) :
    (∀ (t : y4c_node_t) (v : String), resolved_target node key = some t →
        t.type = Y4C_SCALAR → t.value = some v → y4c_get_str node key dflt = some v) ∧
    ((∀ t, resolved_target node key = some t → t.type ≠ Y4C_SCALAR ∨ t.value = none) →
        y4c_get_str node key dflt = dflt) :=
  ⟨fun t v ht hty hv => y4c_get_str_scalar node key dflt t v ht hty hv,
   fun h => y4c_get_str_default node key dflt h⟩

theorem y4c_get_str_value_or_default_witness :
    y4c_get_str (some empty_scalar) none (some "fallback") = some "" ∧
    y4c_get_str (some ports_sequence) none (some "fallback") = some "fallback" :=
  ⟨(y4c_get_str_value_or_default (some empty_scalar) none (some "fallback")).1
      empty_scalar "" rfl rfl rfl,
   (y4c_get_str_value_or_default (some ports_sequence) none (some "fallback")).2
      (by intro t ht; cases ht; exact Or.inl (by decide))⟩

/-- C6: on a resolved Scalar with text `v`, `y4c_get_bool` returns true when
`v` equals one of true/yes/on/1 ignoring letter case, false when `v` equals one
of false/no/off/0 ignoring letter case, and the default for every other text. -/
theorem y4c_get_bool_text (node : Option y4c_node_t) (key : Option String) (t : y4c_node_t)
    (v : String) (d : Bool) (ht : resolved_target node key = some t)
    (hty : t.type = Y4C_SCALAR) (hv : t.value = some v) :
    ((eq_ignore_case v "true" ∨ eq_ignore_case v "yes" ∨ eq_ignore_case v "on" ∨
        eq_ignore_case v "1") → y4c_get_bool node key d = true) ∧
    ((eq_ignore_case v "false" ∨ eq_ignore_case v "no" ∨ eq_ignore_case v "off" ∨
        eq_ignore_case v "0") → y4c_get_bool node key d = false) ∧
    (¬ (eq_ignore_case v "true" ∨ eq_ignore_case v "yes" ∨ eq_ignore_case v "on" ∨
        eq_ignore_case v "1") →
      ¬ (eq_ignore_case v "false" ∨ eq_ignore_case v "no" ∨ eq_ignore_case v "off" ∨
        eq_ignore_case v "0") → y4c_get_bool node key d = d) := by
  have hstr := y4c_get_str_scalar node key none t v ht hty hv
  have cT : (strcasecmp v.data "true".data = 0 ∨ strcasecmp v.data "yes".data = 0 ∨
      strcasecmp v.data "on".data = 0 ∨ strcmp v.data "1".data = 0) ↔
      (eq_ignore_case v "true" ∨ eq_ignore_case v "yes" ∨ eq_ignore_case v "on" ∨
        eq_ignore_case v "1") := by
    rw [strcasecmp_eq_zero_iff_eq_ignore_case, strcasecmp_eq_zero_iff_eq_ignore_case,
      strcasecmp_eq_zero_iff_eq_ignore_case, strcmp_one_iff]
  have cF : (strcasecmp v.data "false".data = 0 ∨ strcasecmp v.data "no".data = 0 ∨
      strcasecmp v.data "off".data = 0 ∨ strcmp v.data "0".data = 0) ↔
      (eq_ignore_case v "false" ∨ eq_ignore_case v "no" ∨ eq_ignore_case v "off" ∨
        eq_ignore_case v "0") := by
    rw [strcasecmp_eq_zero_iff_eq_ignore_case, strcasecmp_eq_zero_iff_eq_ignore_case,
      strcasecmp_eq_zero_iff_eq_ignore_case, strcmp_zero_iff]
  have hb : y4c_get_bool node key d =
      (if strcasecmp v.data "true".data = 0 ∨ strcasecmp v.data "yes".data = 0 ∨
          strcasecmp v.data "on".data = 0 ∨ strcmp v.data "1".data = 0 then true
       else if strcasecmp v.data "false".data = 0 ∨ strcasecmp v.data "no".data = 0 ∨
          strcasecmp v.data "off".data = 0 ∨ strcmp v.data "0".data = 0 then false
       else d) := by
    unfold y4c_get_bool
    rw [hstr]
  rw [hb]
  refine ⟨fun hT => if_pos (cT.2 hT), fun hF => ?_,
    fun hT hF => (if_neg (mt cT.1 hT)).trans (if_neg (mt cF.1 hF))⟩
  have hT : ¬ (eq_ignore_case v "true" ∨ eq_ignore_case v "yes" ∨ eq_ignore_case v "on" ∨
      eq_ignore_case v "1") := by
    intro hT
    unfold eq_ignore_case at hT hF
    rcases hT with h | h | h | h <;> rcases hF with g | g | g | g <;>
      exact absurd (h.symm.trans g) (by decide)
  exact (if_neg (mt cT.1 hT)).trans (if_pos (cF.2 hF))

theorem y4c_get_bool_text_witness :
    y4c_get_bool (some (scalar_node "YeS")) none false = true ∧
    y4c_get_bool (some (scalar_node "OFF")) none true = false ∧
    y4c_get_bool (some (scalar_node " true")) none false = false ∧
    y4c_get_bool (some (scalar_node "truex")) none true = true :=
  ⟨(y4c_get_bool_text (some (scalar_node "YeS")) none (scalar_node "YeS") "YeS" false
      rfl rfl rfl).1 (Or.inr (Or.inl (by decide))),
   (y4c_get_bool_text (some (scalar_node "OFF")) none (scalar_node "OFF") "OFF" true
      rfl rfl rfl).2.1 (Or.inr (Or.inr (Or.inl (by decide)))),
   (y4c_get_bool_text (some (scalar_node " true")) none (scalar_node " true") " true" false
      rfl rfl rfl).2.2 (by decide) (by decide),
   (y4c_get_bool_text (some (scalar_node "truex")) none (scalar_node "truex") "truex" true
      rfl rfl rfl).2.2 (by decide) (by decide)⟩

theorem get_none_of_not_mapping (node : Option y4c_node_t)
    (h : ∀ n, node = some n → n.type ≠ Y4C_MAPPING) (key : Option String) :
    y4c_get node key = none := by
  cases node with
  | none => cases key <;> rfl
  | some n =>
    cases key with
    | none => rfl
    | some k => simp [y4c_get, h n rfl]

/-- C7 (counterexample): the text `abc` has no leading numeric prefix, yet
`y4c_get_int` with default 7 returns 0, not 7. -/
theorem abc_gives_zero_counterexample :
    resolved_target (some (scalar_node "abc")) none = some (scalar_node "abc") ∧
    ¬ has_leading_number "abc".data ∧
    y4c_get_int (some (scalar_node "abc")) none 7 = 0 ∧
    y4c_get_int (some (scalar_node "abc")) none 7 ≠ 7 :=
  ⟨rfl, (has_leading_number_iff _).not.2 (by decide), by decide, by decide⟩

/-- C7 (amended): on a resolved Scalar whose text has no leading numeric
prefix, `y4c_get_int` returns 0 for every default: `atoi` reports no failure,
and the default is not used once a text is present. -/
theorem y4c_get_int_non_numeric (node : Option y4c_node_t) (key : Option String)
    (t : y4c_node_t) (v : String) (ht : resolved_target node key = some t)
    (hty : t.type = Y4C_SCALAR) (hv : t.value = some v)
    (hnum : ¬ has_leading_number v.data) (d : Int) :
    y4c_get_int node key d = 0 := by
  unfold y4c_get_int
  rw [y4c_get_str_scalar node key none t v ht hty hv]
  exact atoi_of_not_numeric v.data hnum

theorem y4c_get_int_non_numeric_witness :
    y4c_get_int (some (scalar_node "abc")) none 7 = 0 :=
  y4c_get_int_non_numeric (some (scalar_node "abc")) none (scalar_node "abc") "abc"
    rfl rfl rfl ((has_leading_number_iff _).not.2 (by decide)) 7

/-- C8: on a resolved Scalar whose text is white space `ws`, a sign `sg`
(empty, `+` or `-`), a non-empty run of digits `ds` and a rest that does not
start with a digit, where the signed value `n` of `ds` lies in the `int` range,
`y4c_get_int` returns `n` whatever the default. -/
theorem y4c_get_int_leading_number (node : Option y4c_node_t) (key : Option String)
    (t : y4c_node_t) (v : String) (ws sg ds rest : List Char) (n d : Int)
    (ht : resolved_target node key = some t) (hty : t.type = Y4C_SCALAR)
    (hv : t.value = some v) (hsplit : v.data = ws ++ sg ++ ds ++ rest)
    (hws : ∀ c ∈ ws, isspace c = true) (hsg : sg = [] ∨ sg = ['+'] ∨ sg = ['-'])
    (hne : ds ≠ []) (hds : ∀ c ∈ ds, isdigit c = true)
    (hrest : ∀ c, rest.head? = some c → isdigit c = false)
    (hn : n = if sg = ['-'] then -(decimal_value ds : Int) else (decimal_value ds : Int))
    (hlo : -(2 : Int) ^ 31 ≤ n) (hhi : n ≤ (2 : Int) ^ 31 - 1) :
    y4c_get_int node key d = n := by
  unfold y4c_get_int
  rw [y4c_get_str_scalar node key none t v ht hty hv]
  show atoi v.data = n
  rw [hsplit]
  exact atoi_of_numeric ws sg ds rest n hws hsg hne hds hrest hn hlo hhi

theorem y4c_get_int_leading_number_witness :
    y4c_get_int (some (scalar_node "12abc")) none 7 = 12 ∧
    y4c_get_int (some config_mapping) (some "port") 7 = 8080 ∧
    y4c_get_int (some (scalar_node " \t-42 5")) none 7 = -42 :=
  ⟨y4c_get_int_leading_number (some (scalar_node "12abc")) none (scalar_node "12abc") "12abc"
      [] [] ['1', '2'] ['a', 'b', 'c'] 12 7 rfl rfl rfl rfl (by decide) (Or.inl rfl)
      (by decide) (by decide) (by intro c h; simp at h; subst h; decide) (by decide)
      (by decide) (by decide),
   y4c_get_int_leading_number (some config_mapping) (some "port")
      (y4c_node_t.mk Y4C_SCALAR (some "port") (some "8080") []) "8080"
      [] [] ['8', '0', '8', '0'] [] 8080 7 rfl rfl rfl rfl (by decide) (Or.inl rfl)
      (by decide) (by decide) (by intro c h; simp at h) (by decide)
      (by decide) (by decide),
   y4c_get_int_leading_number (some (scalar_node " \t-42 5")) none (scalar_node " \t-42 5")
      " \t-42 5" [' ', '\t'] ['-'] ['4', '2'] [' ', '5'] (-42) 7 rfl rfl rfl rfl (by decide)
      (Or.inr (Or.inr rfl)) (by decide) (by decide) (by intro c h; simp at h; subst h; decide)
      (by decide) (by decide) (by decide)⟩

/-- C9: `y4c_get` returns absence for every key on a node that is not a
Mapping (no node, Null, Scalar, Sequence), and `y4c_at` returns absence for
every index on a node that is not a Sequence (no node, Null, Scalar, Mapping),
whatever children the node has. -/
theorem y4c_get_at_wrong_kind (node : Option y4c_node_t) :
    ((∀ n, node = some n → n.type ≠ Y4C_MAPPING) → ∀ key, y4c_get node key = none) ∧
    ((∀ n, node = some n → n.type ≠ Y4C_SEQUENCE) → ∀ idx, y4c_at node idx = none) := by
  constructor
  · intro h key
    cases node with
    | none => cases key <;> rfl
    | some n =>
      cases key with
      | none => rfl
      | some k => simp [y4c_get, h n rfl]
  · intro h idx
    cases node with
    | none => rfl
    | some n => simp [y4c_at, h n rfl]

theorem y4c_get_at_wrong_kind_witness :
    y4c_get (some scalar_with_child) (some "k") = none ∧
    y4c_at (some mapping_with_element) 0 = none ∧
    y4c_get (some ports_sequence) (some "k") = none ∧
    y4c_at (some scalar_with_child) 0 = none ∧
    y4c_get none (some "k") = none ∧ y4c_at none 0 = none :=
  ⟨(y4c_get_at_wrong_kind (some scalar_with_child)).1
      (by intro n hn; cases hn; decide) (some "k"),
   (y4c_get_at_wrong_kind (some mapping_with_element)).2
      (by intro n hn; cases hn; decide) 0,
   (y4c_get_at_wrong_kind (some ports_sequence)).1
      (by intro n hn; cases hn; decide) (some "k"),
   (y4c_get_at_wrong_kind (some scalar_with_child)).2
      (by intro n hn; cases hn; decide) 0,
   (y4c_get_at_wrong_kind none).1 (by intro n hn; cases hn) (some "k"),
   (y4c_get_at_wrong_kind none).2 (by intro n hn; cases hn) 0⟩

theorem get_bool_of_text (node : Option y4c_node_t) (key : Option String) (t : y4c_node_t)
    (v : String) (d : Bool) (ht : resolved_target node key = some t)
    (hty : t.type = Y4C_SCALAR) (hv : t.value = some v) :
    y4c_get_bool node key d =
      (if eq_ignore_case v "true" ∨ eq_ignore_case v "yes" ∨ eq_ignore_case v "on" ∨
          eq_ignore_case v "1" then true
       else if eq_ignore_case v "false" ∨ eq_ignore_case v "no" ∨ eq_ignore_case v "off" ∨
          eq_ignore_case v "0" then false
       else d) := by
  have hstr := y4c_get_str_scalar node key none t v ht hty hv
  have cT : (strcasecmp v.data "true".data = 0 ∨ strcasecmp v.data "yes".data = 0 ∨
      strcasecmp v.data "on".data = 0 ∨ strcmp v.data "1".data = 0) ↔
      (eq_ignore_case v "true" ∨ eq_ignore_case v "yes" ∨ eq_ignore_case v "on" ∨
        eq_ignore_case v "1") := by
    rw [strcasecmp_eq_zero_iff_eq_ignore_case, strcasecmp_eq_zero_iff_eq_ignore_case,
      strcasecmp_eq_zero_iff_eq_ignore_case, strcmp_one_iff]
  have cF : (strcasecmp v.data "false".data = 0 ∨ strcasecmp v.data "no".data = 0 ∨
      strcasecmp v.data "off".data = 0 ∨ strcmp v.data "0".data = 0) ↔
      (eq_ignore_case v "false" ∨ eq_ignore_case v "no" ∨ eq_ignore_case v "off" ∨
        eq_ignore_case v "0") := by
    rw [strcasecmp_eq_zero_iff_eq_ignore_case, strcasecmp_eq_zero_iff_eq_ignore_case,
      strcasecmp_eq_zero_iff_eq_ignore_case, strcmp_zero_iff]
  have hb : y4c_get_bool node key d =
      (if strcasecmp v.data "true".data = 0 ∨ strcasecmp v.data "yes".data = 0 ∨
          strcasecmp v.data "on".data = 0 ∨ strcmp v.data "1".data = 0 then true
       else if strcasecmp v.data "false".data = 0 ∨ strcasecmp v.data "no".data = 0 ∨
          strcasecmp v.data "off".data = 0 ∨ strcmp v.data "0".data = 0 then false
       else d) := by
    unfold y4c_get_bool
    rw [hstr]
  rw [hb]
  by_cases hT : eq_ignore_case v "true" ∨ eq_ignore_case v "yes" ∨ eq_ignore_case v "on" ∨
      eq_ignore_case v "1"
  · rw [if_pos (cT.2 hT), if_pos hT]
  · rw [if_neg (mt cT.1 hT), if_neg hT]
    by_cases hF : eq_ignore_case v "false" ∨ eq_ignore_case v "no" ∨
        eq_ignore_case v "off" ∨ eq_ignore_case v "0"
    · rw [if_pos (cF.2 hF), if_pos hF]
    · rw [if_neg (mt cF.1 hF), if_neg hF]

/-- C10: with a key `k`, each of `y4c_get_str`, `y4c_get_int`, `y4c_get_bool`
gives the result of the same helper applied with no key to `y4c_get(node, k)`;
with no key the helper reads the kind and text of the node itself (two nodes
with the same kind and text give the same result, no node gives the default,
and on a Scalar with text `v` the results are `v`, `atoi v`, and for
`y4c_get_bool` true for true/yes/on/1, false for false/no/off/0 ignoring
letter case, the default otherwise); so with a key the default is returned
whenever the node is not a Mapping, no child has key `k`, or the resolved
child is a Sequence or Mapping. -/
theorem typed_helpers_resolve (node : Option y4c_node_t) (k : String) (ds : Option String)
    (di : Int) (db : Bool) :
    (y4c_get_str node (some k) ds = y4c_get_str (y4c_get node (some k)) none ds ∧
      y4c_get_int node (some k) di = y4c_get_int (y4c_get node (some k)) none di ∧
      y4c_get_bool node (some k) db = y4c_get_bool (y4c_get node (some k)) none db) ∧
    (∀ t1 t2 : y4c_node_t, t1.type = t2.type → t1.value = t2.value →
      y4c_get_str (some t1) none ds = y4c_get_str (some t2) none ds ∧
      y4c_get_int (some t1) none di = y4c_get_int (some t2) none di ∧
      y4c_get_bool (some t1) none db = y4c_get_bool (some t2) none db) ∧
    (∀ (t : y4c_node_t) (v : String), t.type = Y4C_SCALAR → t.value = some v →
      y4c_get_str (some t) none ds = some v ∧ y4c_get_int (some t) none di = atoi v.data ∧
      y4c_get_bool (some t) none db =
        (if eq_ignore_case v "true" ∨ eq_ignore_case v "yes" ∨ eq_ignore_case v "on" ∨
            eq_ignore_case v "1" then true
         else if eq_ignore_case v "false" ∨ eq_ignore_case v "no" ∨
            eq_ignore_case v "off" ∨ eq_ignore_case v "0" then false
         else db)) ∧
    (y4c_get_str none none ds = ds ∧ y4c_get_int none none di = di ∧
      y4c_get_bool none none db = db) ∧
    (((∀ n, node = some n → n.type ≠ Y4C_MAPPING) ∨
        (∃ m, node = some m ∧ ∀ c ∈ m.children, c.key ≠ some k) ∨
        (∃ c, y4c_get node (some k) = some c ∧
          (c.type = Y4C_SEQUENCE ∨ c.type = Y4C_MAPPING))) →
      y4c_get_str node (some k) ds = ds ∧ y4c_get_int node (some k) di = di ∧
      y4c_get_bool node (some k) db = db) := by
  refine ⟨⟨rfl, rfl, rfl⟩, ?_, ?_, ⟨rfl, rfl, rfl⟩, ?_⟩
  · intro t1 t2 hty hval
    have hs : ∀ d : Option String,
        y4c_get_str (some t1) none d = y4c_get_str (some t2) none d := by
      intro d
      simp only [y4c_get_str, hty, hval]
    refine ⟨hs ds, ?_, ?_⟩
    · simp only [y4c_get_int, hs none]
    · simp only [y4c_get_bool, hs none]
  · intro t v hty hv
    have hs : ∀ d : Option String, y4c_get_str (some t) none d = some v := fun d =>
      y4c_get_str_scalar (some t) none d t v rfl hty hv
    refine ⟨hs ds, ?_, get_bool_of_text (some t) none t v db rfl hty hv⟩
    simp only [y4c_get_int, hs none]
  · intro h
    have hdef : ∀ d : Option String, y4c_get_str node (some k) d = d := by
      intro d
      apply y4c_get_str_default
      intro t ht
      have ht2 : y4c_get node (some k) = some t := ht
      rcases h with h | ⟨m, hm, hall⟩ | ⟨c, hc, hkind⟩
      · rw [(get_none_of_not_mapping node h) (some k)] at ht2
        cases ht2
      · subst hm
        by_cases hmap : m.type = Y4C_MAPPING
        · have hnone : y4c_get (some m) (some k) = none := by
            simp only [y4c_get, hmap, ne_eq, not_true_eq_false, if_false,
              y4c_get_loop_eq_find, List.find?_eq_none]
            intro x hx
            simpa using hall x hx
          rw [hnone] at ht2
          cases ht2
        · have hnone : y4c_get (some m) (some k) = none := by simp [y4c_get, hmap]
          rw [hnone] at ht2
          cases ht2
      · rw [hc] at ht2
        cases ht2
        rcases hkind with e | e
        · exact Or.inl (by rw [e]; decide)
        · exact Or.inl (by rw [e]; decide)
    refine ⟨hdef ds, ?_, ?_⟩
    · simp only [y4c_get_int, hdef none]
    · simp only [y4c_get_bool, hdef none]

theorem typed_helpers_resolve_witness :
    (y4c_get_str (some config_mapping) (some "hosts") (some "dflt") = some "dflt" ∧
      y4c_get_int (some config_mapping) (some "hosts") 7 = 7 ∧
      y4c_get_bool (some config_mapping) (some "hosts") true = true) ∧
    (y4c_get_str (some config_mapping) (some "user") (some "dflt") = some "dflt" ∧
      y4c_get_int (some config_mapping) (some "user") 7 = 7 ∧
      y4c_get_bool (some config_mapping) (some "user") true = true) ∧
    (y4c_get_str (some ports_sequence) (some "port") (some "dflt") = some "dflt" ∧
      y4c_get_int (some ports_sequence) (some "port") 7 = 7 ∧
      y4c_get_bool (some ports_sequence) (some "port") true = true) ∧
    (y4c_get_bool (some (scalar_node "YES")) none false = true ∧
      y4c_get_bool (some (scalar_node "Off")) none true = false ∧
      y4c_get_bool (some (scalar_node "maybe")) none true = true ∧
      y4c_get_bool (some (scalar_node "maybe")) none false = false) :=
  ⟨(typed_helpers_resolve (some config_mapping) "hosts" (some "dflt") 7 true).2.2.2.2
      (Or.inr (Or.inr ⟨_, rfl, Or.inl rfl⟩)),
   (typed_helpers_resolve (some config_mapping) "user" (some "dflt") 7 true).2.2.2.2
      (Or.inr (Or.inl ⟨config_mapping, rfl, by
        intro c hc
        simp [config_mapping, y4c_node_t.children] at hc
        rcases hc with rfl | rfl <;> decide⟩)),
   (typed_helpers_resolve (some ports_sequence) "port" (some "dflt") 7 true).2.2.2.2
      (Or.inl (by intro n hn; cases hn; decide)),
   ⟨((typed_helpers_resolve none "k" none 0 false).2.2.1
        (scalar_node "YES") "YES" rfl rfl).2.2.trans (by decide),
    ((typed_helpers_resolve none "k" none 0 true).2.2.1
        (scalar_node "Off") "Off" rfl rfl).2.2.trans (by decide),
    ((typed_helpers_resolve none "k" none 0 true).2.2.1
        (scalar_node "maybe") "maybe" rfl rfl).2.2.trans (by decide),
    ((typed_helpers_resolve none "k" none 0 false).2.2.1
        (scalar_node "maybe") "maybe" rfl rfl).2.2.trans (by decide)⟩⟩

/-! ## Tree builder: single steps -/

theorem parse_sequence_end (f : Nat) (q : List yaml_outcome_t) (p : Option String) (l c : Nat)
    (node : y4c_node_t) :
    y4c_parse_sequence (f + 1) ⟨yaml_outcome_t.event YAML_SEQUENCE_END_EVENT :: q, p, l, c⟩ node =
      some (node, ⟨q, p, l, c⟩) := by
  simp [y4c_parse_sequence, yaml_parser_parse]

theorem parse_sequence_step (f : Nat) (e : yaml_event_t) (q : List yaml_outcome_t)
    (p : Option String) (l c : Nat) (node : y4c_node_t) (he : e ≠ YAML_SEQUENCE_END_EVENT) :
    y4c_parse_sequence (f + 1) ⟨yaml_outcome_t.event e :: q, p, l, c⟩ node =
      match y4c_parse_event f ⟨q, p, l, c⟩ e with
      | none => none
      | some (some child, parser) => y4c_parse_sequence f parser (y4c_append_child node child)
      | some (none, parser) => y4c_parse_sequence f parser node := by
  cases e <;> first | exact absurd rfl he | simp [y4c_parse_sequence, yaml_parser_parse]

theorem parse_mapping_end (f : Nat) (q : List yaml_outcome_t) (p : Option String) (l c : Nat)
    (node : y4c_node_t) :
    y4c_parse_mapping (f + 1) ⟨yaml_outcome_t.event YAML_MAPPING_END_EVENT :: q, p, l, c⟩ node =
      some (node, ⟨q, p, l, c⟩) := by
  simp [y4c_parse_mapping, yaml_parser_parse]

theorem parse_mapping_step (f : Nat) (k : String) (e : yaml_event_t) (q : List yaml_outcome_t)
    (p : Option String) (l c : Nat) (node : y4c_node_t) :
    y4c_parse_mapping (f + 1)
        ⟨yaml_outcome_t.event (YAML_SCALAR_EVENT k) :: yaml_outcome_t.event e :: q, p, l, c⟩ node =
      match y4c_parse_event f ⟨q, p, l, c⟩ e with
      | none => none
      | some (some child, parser) =>
        y4c_parse_mapping f parser (y4c_append_child node (y4c_set_key child k))
      | some (none, parser) => y4c_parse_mapping f parser node := by
  simp [y4c_parse_mapping, yaml_parser_parse]

/-! ## Tree builder: round trip -/

theorem type_mk (t : y4c_type_t) (k v : Option String) (cs : List y4c_node_t) :
    (y4c_node_t.mk t k v cs).type = t := rfl

theorem key_mk (t : y4c_type_t) (k v : Option String) (cs : List y4c_node_t) :
    (y4c_node_t.mk t k v cs).key = k := rfl

theorem value_mk (t : y4c_type_t) (k v : Option String) (cs : List y4c_node_t) :
    (y4c_node_t.mk t k v cs).value = v := rfl

theorem children_mk (t : y4c_type_t) (k v : Option String) (cs : List y4c_node_t) :
    (y4c_node_t.mk t k v cs).children = cs := rfl

theorem map_event_append_singleton (es : List yaml_event_t) (e : yaml_event_t)
    (rest : List yaml_outcome_t) :
    (es ++ [e]).map yaml_outcome_t.event ++ rest =
      es.map yaml_outcome_t.event ++ yaml_outcome_t.event e :: rest := by
  simp

mutual
theorem parse_event_to_events : ∀ (t : y4c_node_t), well_formed t = true →
    ∀ (fuel : Nat) (rest : List yaml_outcome_t) (p : Option String) (l c : Nat),
      2 * (to_events t).length ≤ fuel →
      ∃ hd tl, to_events t = hd :: tl ∧ hd ≠ YAML_SEQUENCE_END_EVENT ∧
        y4c_parse_event fuel ⟨tl.map yaml_outcome_t.event ++ rest, p, l, c⟩ hd =
          some (some (y4c_node_t.mk t.type none t.value t.children), ⟨rest, p, l, c⟩)
  | y4c_node_t.mk Y4C_NULL k v cs, hwf, _, _, _, _, _, _ => by
    simp [well_formed] at hwf
  | y4c_node_t.mk Y4C_SCALAR k v cs, hwf, fuel, rest, p, l, c, hf => by
    simp only [well_formed, Bool.and_eq_true, Option.isSome_iff_exists,
      List.isEmpty_iff] at hwf
    obtain ⟨⟨v1, rfl⟩, rfl⟩ := hwf
    simp only [to_events, Option.getD_some, List.length_singleton] at hf
    obtain ⟨f, rfl⟩ : ∃ f, fuel = f + 1 := ⟨fuel - 1, by omega⟩
    refine ⟨YAML_SCALAR_EVENT v1, [], by simp [to_events], by simp, ?_⟩
    simp [y4c_parse_event, y4c_set_value, y4c_new_node, type_mk, key_mk, value_mk, children_mk]
  | y4c_node_t.mk Y4C_SEQUENCE k v cs, hwf, fuel, rest, p, l, c, hf => by
    simp only [well_formed, Bool.and_eq_true, Option.isNone_iff_eq_none] at hwf
    obtain ⟨rfl, hcs⟩ := hwf
    simp only [to_events, List.length_cons, List.length_append, List.length_singleton] at hf
    obtain ⟨f, rfl⟩ : ∃ f, fuel = f + 1 := ⟨fuel - 1, by omega⟩
    refine ⟨YAML_SEQUENCE_START_EVENT, to_events_elements cs ++ [YAML_SEQUENCE_END_EVENT],
      by simp [to_events], by simp, ?_⟩
    have h := parse_sequence_to_events cs hcs f (y4c_new_node Y4C_SEQUENCE) rest p l c
      (by omega)
    rw [map_event_append_singleton]
    simp only [y4c_parse_event, h]
    simp [y4c_new_node, type_mk, key_mk, value_mk, children_mk]
  | y4c_node_t.mk Y4C_MAPPING k v cs, hwf, fuel, rest, p, l, c, hf => by
    simp only [well_formed, Bool.and_eq_true, Option.isNone_iff_eq_none] at hwf
    obtain ⟨rfl, hcs⟩ := hwf
    simp only [to_events, List.length_cons, List.length_append, List.length_singleton] at hf
    obtain ⟨f, rfl⟩ : ∃ f, fuel = f + 1 := ⟨fuel - 1, by omega⟩
    refine ⟨YAML_MAPPING_START_EVENT, to_events_entries cs ++ [YAML_MAPPING_END_EVENT],
      by simp [to_events], by simp, ?_⟩
    have h := parse_mapping_to_events cs hcs f (y4c_new_node Y4C_MAPPING) rest p l c
      (by omega)
    rw [map_event_append_singleton]
    simp only [y4c_parse_event, h]
    simp [y4c_new_node, type_mk, key_mk, value_mk, children_mk]
theorem parse_sequence_to_events : ∀ (cs : List y4c_node_t), well_formed_elements cs = true →
    ∀ (fuel : Nat) (node : y4c_node_t) (rest : List yaml_outcome_t) (p : Option String)
      (l c : Nat), 2 * (to_events_elements cs).length + 1 ≤ fuel →
      y4c_parse_sequence fuel
          ⟨(to_events_elements cs).map yaml_outcome_t.event ++
            yaml_outcome_t.event YAML_SEQUENCE_END_EVENT :: rest, p, l, c⟩ node =
        some (y4c_node_t.mk node.type node.key node.value (node.children ++ cs),
          ⟨rest, p, l, c⟩)
  | [], _, fuel, node, rest, p, l, c, hf => by
    obtain ⟨f, rfl⟩ : ∃ f, fuel = f + 1 := ⟨fuel - 1, by omega⟩
    cases node
    simp [to_events_elements, parse_sequence_end, type_mk, key_mk, value_mk, children_mk]
  | ch :: cs, hwf, fuel, node, rest, p, l, c, hf => by
    simp only [well_formed_elements, Bool.and_eq_true, Option.isNone_iff_eq_none] at hwf
    obtain ⟨⟨hkey, hch⟩, hcs⟩ := hwf
    simp only [to_events_elements, List.length_append] at hf
    obtain ⟨f, rfl⟩ : ∃ f, fuel = f + 1 := ⟨fuel - 1, by omega⟩
    obtain ⟨hd, tl, hev, hne, hparse⟩ := parse_event_to_events ch hch f
      ((to_events_elements cs).map yaml_outcome_t.event ++
        yaml_outcome_t.event YAML_SEQUENCE_END_EVENT :: rest) p l c (by omega)
    have hlen : (to_events ch).length = tl.length + 1 := by rw [hev]; rfl
    have hrec := parse_sequence_to_events cs hcs f
      (y4c_append_child node (y4c_node_t.mk ch.type none ch.value ch.children)) rest p l c
      (by omega)
    have hch_eq : y4c_node_t.mk ch.type none ch.value ch.children = ch := by
      cases ch
      simp only [key_mk] at hkey
      simp [type_mk, value_mk, children_mk, hkey]
    simp only [to_events_elements, hev, List.cons_append, List.map_cons, List.map_append,
      List.append_assoc]
    rw [parse_sequence_step f hd _ p l c node hne, hparse]
    simp only [hrec]
    cases node
    simp [y4c_append_child, hch_eq, type_mk, key_mk, value_mk, children_mk]
theorem parse_mapping_to_events : ∀ (cs : List y4c_node_t), well_formed_entries cs = true →
    ∀ (fuel : Nat) (node : y4c_node_t) (rest : List yaml_outcome_t) (p : Option String)
      (l c : Nat), 2 * (to_events_entries cs).length + 1 ≤ fuel →
      y4c_parse_mapping fuel
          ⟨(to_events_entries cs).map yaml_outcome_t.event ++
            yaml_outcome_t.event YAML_MAPPING_END_EVENT :: rest, p, l, c⟩ node =
        some (y4c_node_t.mk node.type node.key node.value (node.children ++ cs),
          ⟨rest, p, l, c⟩)
  | [], _, fuel, node, rest, p, l, c, hf => by
    obtain ⟨f, rfl⟩ : ∃ f, fuel = f + 1 := ⟨fuel - 1, by omega⟩
    cases node
    simp [to_events_entries, parse_mapping_end, type_mk, key_mk, value_mk, children_mk]
  | ch :: cs, hwf, fuel, node, rest, p, l, c, hf => by
    simp only [well_formed_entries, Bool.and_eq_true, Option.isSome_iff_exists] at hwf
    obtain ⟨⟨⟨k, hkey⟩, hch⟩, hcs⟩ := hwf
    simp only [to_events_entries, List.length_cons, List.length_append] at hf
    obtain ⟨f, rfl⟩ : ∃ f, fuel = f + 1 := ⟨fuel - 1, by omega⟩
    obtain ⟨hd, tl, hev, _, hparse⟩ := parse_event_to_events ch hch f
      ((to_events_entries cs).map yaml_outcome_t.event ++
        yaml_outcome_t.event YAML_MAPPING_END_EVENT :: rest) p l c (by omega)
    have hlen : (to_events ch).length = tl.length + 1 := by rw [hev]; rfl
    have hrec := parse_mapping_to_events cs hcs f
      (y4c_append_child node (y4c_set_key (y4c_node_t.mk ch.type none ch.value ch.children) k))
      rest p l c (by omega)
    have hch_eq : y4c_set_key (y4c_node_t.mk ch.type none ch.value ch.children) k = ch := by
      cases ch
      simp only [key_mk] at hkey
      simp [y4c_set_key, type_mk, value_mk, children_mk, hkey]
    simp only [to_events_entries, hev, hkey, Option.getD_some, List.cons_append, List.map_cons,
      List.map_append, List.append_assoc]
    rw [parse_mapping_step f k hd _ p l c node, hparse]
    simp only [hrec]
    cases node
    simp [y4c_append_child, hch_eq, type_mk, key_mk, value_mk, children_mk]
end

/-- C4: round trip.  For every tree made of Scalar, Sequence and Mapping nodes
(mapping children keyed by text, no key on the root), running the tree builder
on the event sequence of the tree, with fuel at least twice the number of
events, returns that very tree, children in the same order, and leaves the
producer empty. -/
theorem build_tree_round_trip (t : y4c_node_t) (hwf : well_formed t = true)
    (hroot : t.key = none) (fuel : Nat) (hfuel : 2 * (to_events t).length ≤ fuel) :
    build_tree fuel (to_events t) = some (some t, producer_of []) := by
  obtain ⟨hd, tl, hev, _, hparse⟩ := parse_event_to_events t hwf fuel [] none 0 0 hfuel
  have ht : y4c_node_t.mk t.type none t.value t.children = t := by
    cases t
    simp only [key_mk] at hroot
    simp [type_mk, value_mk, children_mk, hroot]
  rw [hev]
  simp only [build_tree, producer_of, yaml_parser_initialize, List.map_nil]
  rw [List.append_nil, ht] at hparse
  exact hparse

theorem build_tree_round_trip_witness :
    build_tree 36 (to_events app_tree) = some (some app_tree, producer_of []) :=
  build_tree_round_trip app_tree (by decide) rfl 36 (by decide)

/-- C3 (evaluation at the failing input): when the producer fails after the
first element of the root sequence, `y4c_load_str` returns the partly built
Sequence holding that element, and the error record stays zeroed. -/
theorem y4c_load_str_failure_in_sequence (n cap : Nat) :
    y4c_load_str (n + 5) cap failing_in_sequence =
      some (some (y4c_node_t.mk Y4C_SEQUENCE none none
        [y4c_node_t.mk Y4C_SCALAR none (some "a") []]), ⟨"", 0, 0⟩) := by
  rfl


/-! ## Loader: single steps -/

theorem load_loop_skip (f cap : Nat) (e : yaml_event_t) (q : List yaml_outcome_t)
    (p : Option String) (l c : Nat) (root : Option y4c_node_t) (err : y4c_error_t)
    (h1 : e ≠ YAML_DOCUMENT_START_EVENT) (h2 : e ≠ YAML_STREAM_END_EVENT) :
    y4c_load_loop (f + 1) cap ⟨yaml_outcome_t.event e :: q, p, l, c⟩ root err =
      y4c_load_loop f cap ⟨q, p, l, c⟩ root err := by
  cases e <;> first
    | exact absurd rfl h1
    | exact absurd rfl h2
    | simp [y4c_load_loop, yaml_parser_parse]

theorem load_loop_skip_all (cap : Nat) (pre : List yaml_event_t)
    (hpre : ∀ e ∈ pre, e ≠ YAML_DOCUMENT_START_EVENT ∧ e ≠ YAML_STREAM_END_EVENT)
    (f : Nat) (q : List yaml_outcome_t) (p : Option String) (l c : Nat)
    (root : Option y4c_node_t) (err : y4c_error_t) :
    y4c_load_loop (pre.length + f) cap ⟨pre.map yaml_outcome_t.event ++ q, p, l, c⟩ root err =
      y4c_load_loop f cap ⟨q, p, l, c⟩ root err := by
  induction pre with
  | nil => simp
  | cons e es ih =>
    have he := hpre e (List.mem_cons_self _ _)
    have hes : ∀ x ∈ es, x ≠ YAML_DOCUMENT_START_EVENT ∧ x ≠ YAML_STREAM_END_EVENT :=
      fun x hx => hpre x (List.mem_cons_of_mem _ hx)
    have hlen : (e :: es).length + f = (es.length + f) + 1 := by
      simp only [List.length_cons]
      omega
    rw [hlen, List.map_cons, List.cons_append, load_loop_skip _ cap e _ p l c root err he.1 he.2]
    exact ih hes

theorem load_loop_document (f cap : Nat) (e : yaml_event_t) (q : List yaml_outcome_t)
    (p : Option String) (l c : Nat) (root : Option y4c_node_t) (err : y4c_error_t) :
    y4c_load_loop (f + 1) cap
        ⟨yaml_outcome_t.event YAML_DOCUMENT_START_EVENT :: yaml_outcome_t.event e :: q,
          p, l, c⟩ root err =
      match y4c_parse_event f ⟨q, p, l, c⟩ e with
      | some (r, _) => some (r, err)
      | none => none := by
  simp [y4c_load_loop, yaml_parser_parse]

theorem load_loop_failure (f cap : Nat) (p1 : Option String) (l1 c1 : Nat)
    (q : List yaml_outcome_t) (p : Option String) (l c : Nat) (root : Option y4c_node_t)
    (err : y4c_error_t) :
    y4c_load_loop (f + 1) cap ⟨yaml_outcome_t.failure p1 l1 c1 :: q, p, l, c⟩ root err =
      some (none, y4c_set_error cap p1 l1 c1) := by
  simp [y4c_load_loop, yaml_parser_parse]

theorem load_loop_spins (cap : Nat) (p : Option String) (l c : Nat)
    (root : Option y4c_node_t) (err : y4c_error_t) :
    ∀ fuel : Nat, y4c_load_loop fuel cap ⟨[], p, l, c⟩ root err = none := by
  intro fuel
  induction fuel with
  | zero => simp [y4c_load_loop]
  | succ f ih => simpa [y4c_load_loop, yaml_parser_parse] using ih

theorem load_loop_document_failure (f cap : Nat) (p1 : Option String) (l1 c1 : Nat)
    (q : List yaml_outcome_t) (p : Option String) (l c : Nat) (root : Option y4c_node_t)
    (err : y4c_error_t) :
    y4c_load_loop (f + 1) cap
        ⟨yaml_outcome_t.event YAML_DOCUMENT_START_EVENT :: yaml_outcome_t.failure p1 l1 c1 :: q,
          p, l, c⟩ root err =
      y4c_load_loop f cap ⟨q, p1, l1, c1⟩ root err := by
  simp [y4c_load_loop, yaml_parser_parse]

theorem load_first_document (pre : List yaml_event_t) (t : y4c_node_t)
    (rest : List yaml_outcome_t) (cap fuel : Nat)
    (hpre : ∀ e ∈ pre, e ≠ YAML_DOCUMENT_START_EVENT ∧ e ≠ YAML_STREAM_END_EVENT)
    (hwf : well_formed t = true) (hroot : t.key = none)
    (hfuel : pre.length + 1 + 2 * (to_events t).length ≤ fuel) :
    y4c_load_str fuel cap
        ( yaml_parser_initialize
          (pre.map yaml_outcome_t.event ++
            yaml_outcome_t.event YAML_DOCUMENT_START_EVENT ::
              ((to_events t).map yaml_outcome_t.event ++ rest))) =
      some (some t, ⟨"", 0, 0⟩) := by
  obtain ⟨f, rfl⟩ : ∃ f, fuel = pre.length + (f + 1) :=
    ⟨fuel - pre.length - 1, by omega⟩
  obtain ⟨hd, tl, hev, _, hparse⟩ :=
    parse_event_to_events t hwf f rest none 0 0 (by omega)
  have ht : y4c_node_t.mk t.type none t.value t.children = t := by
    cases t
    simp only [key_mk] at hroot
    simp [type_mk, value_mk, children_mk, hroot]
  rw [ht] at hparse
  unfold y4c_load_str yaml_parser_initialize
  rw [load_loop_skip_all cap pre hpre, hev, List.map_cons, List.cons_append,
    load_loop_document, hparse]

/-! ## Scenarios -/

/-- C14: Scenario A.  On the event stream of the document
`app: {name: MyApp, version: 1.0, enabled: true, ports: [8080, 9090]}` the
loader returns a root Mapping with the single child `app`, a Mapping with the
children `name`, `version`, `enabled`, `ports` in that order; `y4c_get_str`
gives `MyApp` for `name`, `y4c_get_bool` gives true for `enabled`, and `y4c_at`
on `ports` gives the Scalars `8080` and `9090` at 0 and 1 and absence at 2. -/
theorem scenario_a_loads (n cap : Nat) :
    y4c_load_str (n + 40) cap scenario_a = some (some app_tree, ⟨"", 0, 0⟩) ∧
    app_tree.type = Y4C_MAPPING ∧ app_tree.children = [app_node] ∧
    y4c_get (some app_tree) (some "app") = some app_node ∧
    app_node.type = Y4C_MAPPING ∧
    app_node.children =
      [y4c_node_t.mk Y4C_SCALAR (some "name") (some "MyApp") [],
       y4c_node_t.mk Y4C_SCALAR (some "version") (some "1.0") [],
       y4c_node_t.mk Y4C_SCALAR (some "enabled") (some "true") [],
       app_ports] ∧
    y4c_get_str (some app_node) (some "name") (some "Unknown") = some "MyApp" ∧
    y4c_get_bool (some app_node) (some "enabled") false = true ∧
    y4c_get (some app_node) (some "ports") = some app_ports ∧
    app_ports.type = Y4C_SEQUENCE ∧
    y4c_at (some app_ports) 0 = some (y4c_node_t.mk Y4C_SCALAR none (some "8080") []) ∧
    y4c_at (some app_ports) 1 = some (y4c_node_t.mk Y4C_SCALAR none (some "9090") []) ∧
    y4c_at (some app_ports) 2 = none :=
  ⟨load_first_document [YAML_STREAM_START_EVENT] app_tree
      [yaml_outcome_t.event YAML_DOCUMENT_END_EVENT,
       yaml_outcome_t.event YAML_STREAM_END_EVENT] cap (n + 40)
      (by decide) (by decide) rfl (by
        have h : (to_events app_tree).length = 16 := by decide
        rw [h]
        simp only [List.length_singleton]
        omega),
    rfl, rfl, rfl, rfl, rfl, rfl, rfl, rfl, rfl, rfl, rfl, rfl⟩

/-- C12 (counterexample): on the stream stream-start, stream-end the loader
returns no node; in particular it does not return a node of kind Null. -/
theorem empty_input_no_node_counterexample :
    y4c_load_str 8 256 empty_input = some (none, ⟨"", 0, 0⟩) ∧
    y4c_load_str 8 256 empty_input ≠ some (some (y4c_new_node Y4C_NULL), ⟨"", 0, 0⟩) :=
  ⟨rfl, by
    intro h
    have h1 : y4c_load_str 8 256 empty_input = some (none, ⟨"", 0, 0⟩) := rfl
    rw [h1] at h
    cases h⟩

/-- C12 (amended): for empty input (stream-start, stream-end, no document)
`y4c_load_str` returns no node and leaves the error record zeroed, for every
fuel from 2 on. -/
theorem y4c_load_str_empty_input (n cap : Nat) :
    y4c_load_str (n + 2) cap empty_input = some (none, ⟨"", 0, 0⟩) := by
  rfl

/-! ## Tree builder: consumption -/

/-- C17: for every well-formed tree `t` and every continuation `rest` of the
producer, `y4c_parse_event` run on the first event of `to_events t`, with the
producer holding the remaining events of `t` followed by `rest`, returns a
node and leaves exactly `rest` pending, the problem fields untouched. -/
theorem parse_event_consumes_one_node (t : y4c_node_t) (hwf : well_formed t = true)
    (rest : List yaml_outcome_t) (p : Option String) (l c : Nat) (fuel : Nat)
    (hfuel : 2 * (to_events t).length ≤ fuel) :
    ∃ hd tl node, to_events t = hd :: tl ∧
      y4c_parse_event fuel ⟨tl.map yaml_outcome_t.event ++ rest, p, l, c⟩ hd =
        some (some node, ⟨rest, p, l, c⟩) := by
  obtain ⟨hd, tl, hev, _, hparse⟩ := parse_event_to_events t hwf fuel rest p l c hfuel
  exact ⟨hd, tl, _, hev, hparse⟩

theorem parse_event_consumes_one_node_witness :
    ∃ hd tl node, to_events app_ports = hd :: tl ∧
      y4c_parse_event 8
          ⟨tl.map yaml_outcome_t.event ++
            [yaml_outcome_t.event YAML_DOCUMENT_END_EVENT,
             yaml_outcome_t.failure none 0 0], none, 0, 0⟩ hd =
        some (some node,
          ⟨[yaml_outcome_t.event YAML_DOCUMENT_END_EVENT,
            yaml_outcome_t.failure none 0 0], none, 0, 0⟩) :=
  parse_event_consumes_one_node app_ports (by decide) _ none 0 0 8 (by decide)

/-! ## Loader: first document and failures -/

theorem set_error_fields (cap : Nat) (p : Option String) (l c : Nat) :
    (y4c_set_error cap p l c).line = l ∧ (y4c_set_error cap p l c).column = c ∧
    ((p.getD "Unknown error").length < cap →
      (y4c_set_error cap p l c).message = p.getD "Unknown error") := by
  refine ⟨rfl, rfl, fun h => ?_⟩
  simp only [y4c_set_error]
  have hlen : (p.getD "Unknown error").data.length ≤ cap - 1 := by
    have : (p.getD "Unknown error").data.length = (p.getD "Unknown error").length := rfl
    omega
  rw [List.take_of_length_le hlen]

theorem load_loop_none_after_skip (cap : Nat) (pre : List yaml_event_t)
    (hpre : ∀ e ∈ pre, e ≠ YAML_DOCUMENT_START_EVENT ∧ e ≠ YAML_STREAM_END_EVENT)
    (q : List yaml_outcome_t) (p : Option String) (l c : Nat) (root : Option y4c_node_t)
    (err : y4c_error_t)
    (hq : ∀ f : Nat, y4c_load_loop f cap ⟨q, p, l, c⟩ root err = none) :
    ∀ fuel : Nat,
      y4c_load_loop fuel cap ⟨pre.map yaml_outcome_t.event ++ q, p, l, c⟩ root err = none := by
  induction pre with
  | nil => simpa using hq
  | cons e es ih =>
    have he := hpre e (List.mem_cons_self _ _)
    have hes : ∀ x ∈ es, x ≠ YAML_DOCUMENT_START_EVENT ∧ x ≠ YAML_STREAM_END_EVENT :=
      fun x hx => hpre x (List.mem_cons_of_mem _ hx)
    intro fuel
    cases fuel with
    | zero => simp [y4c_load_loop]
    | succ f =>
      rw [List.map_cons, List.cons_append, load_loop_skip f cap e _ p l c root err he.1 he.2]
      exact ih hes f

theorem load_loop_document_failure_spins (cap : Nat) (p1 : Option String) (l1 c1 : Nat)
    (p : Option String) (l c : Nat) (root : Option y4c_node_t) (err : y4c_error_t) :
    ∀ fuel : Nat,
      y4c_load_loop fuel cap
          ⟨[yaml_outcome_t.event YAML_DOCUMENT_START_EVENT, yaml_outcome_t.failure p1 l1 c1],
            p, l, c⟩ root err = none := by
  intro fuel
  cases fuel with
  | zero => simp [y4c_load_loop]
  | succ f => rw [load_loop_document_failure, load_loop_spins]

/-- C16 (what the code does): when the producer fails at stream level, after
events that are neither document-start nor stream-end, `y4c_load_str` returns
no node and the error record made by `y4c_set_error` from the producer's
problem text, line and column (line and column unchanged, the message being
the problem text, or `Unknown error` when there is none, whenever that text is
shorter than the message array).  When the producer fails on the first call
after the document-start, nothing is recorded, the loop goes on reading empty
events, and `y4c_load_str` does not return, whatever the fuel. -/
theorem y4c_load_str_producer_failure (pre : List yaml_event_t) (cap fuel : Nat)
    (p : Option String) (l c : Nat)
    (hpre : ∀ e ∈ pre, e ≠ YAML_DOCUMENT_START_EVENT ∧ e ≠ YAML_STREAM_END_EVENT)
    (hfuel : pre.length + 1 ≤ fuel) :
    (∀ rest : List yaml_outcome_t,
      y4c_load_str fuel cap
          ( yaml_parser_initialize
            (pre.map yaml_outcome_t.event ++ yaml_outcome_t.failure p l c :: rest)) =
        some (none, y4c_set_error cap p l c)) ∧
    ((y4c_set_error cap p l c).line = l ∧ (y4c_set_error cap p l c).column = c ∧
      ((p.getD "Unknown error").length < cap →
        (y4c_set_error cap p l c).message = p.getD "Unknown error")) ∧
    (∀ fuel1 : Nat,
      y4c_load_str fuel1 cap
          ( yaml_parser_initialize
            (pre.map yaml_outcome_t.event ++
              [yaml_outcome_t.event YAML_DOCUMENT_START_EVENT,
               yaml_outcome_t.failure p l c])) = none) := by
  obtain ⟨f, rfl⟩ : ∃ f, fuel = pre.length + (f + 1) :=
    ⟨fuel - pre.length - 1, by omega⟩
  refine ⟨fun rest => ?_, set_error_fields cap p l c, fun fuel1 => ?_⟩
  · unfold y4c_load_str yaml_parser_initialize
    rw [load_loop_skip_all cap pre hpre, load_loop_failure]
  · unfold y4c_load_str yaml_parser_initialize
    exact load_loop_none_after_skip cap pre hpre _ none 0 0 none _
      (load_loop_document_failure_spins cap p l c none 0 0 none _) fuel1

theorem y4c_load_str_producer_failure_witness :
    y4c_load_str 4 256
        ( yaml_parser_initialize
          [yaml_outcome_t.event YAML_STREAM_START_EVENT,
           yaml_outcome_t.failure (some "did not find expected key") 3 7]) =
      some (none, ⟨"did not find expected key", 3, 7⟩) ∧
    y4c_load_str 1000 256
        ( yaml_parser_initialize
          [yaml_outcome_t.event YAML_STREAM_START_EVENT,
           yaml_outcome_t.event YAML_DOCUMENT_START_EVENT,
           yaml_outcome_t.failure (some "found unexpected end of stream") 1 4]) = none :=
  ⟨(y4c_load_str_producer_failure [YAML_STREAM_START_EVENT] 256 4
      (some "did not find expected key") 3 7 (by decide) (by decide)).1 _,
   (y4c_load_str_producer_failure [YAML_STREAM_START_EVENT] 256 4
      (some "found unexpected end of stream") 1 4 (by decide) (by decide)).2.2 1000⟩

/-! ## Tree builder: a producer that is used up -/

theorem parse_event_no_event (fuel : Nat) (parser : yaml_parser_t) :
    y4c_parse_event fuel parser YAML_NO_EVENT = none ∨
    y4c_parse_event fuel parser YAML_NO_EVENT = some (none, parser) := by
  cases fuel with
  | zero => exact Or.inl (by simp [y4c_parse_event])
  | succ f => exact Or.inr (by simp [y4c_parse_event])

theorem parse_sequence_spins (p : Option String) (l c : Nat) :
    ∀ (fuel : Nat) (node : y4c_node_t),
      y4c_parse_sequence fuel ⟨[], p, l, c⟩ node = none := by
  intro fuel
  induction fuel with
  | zero => intro node; simp [y4c_parse_sequence]
  | succ f ih =>
    intro node
    rcases parse_event_no_event f ⟨[], p, l, c⟩ with h | h
    · simp [y4c_parse_sequence, yaml_parser_parse, h]
    · simp [y4c_parse_sequence, yaml_parser_parse, h, ih]

theorem parse_sequence_failure (f : Nat) (p1 : Option String) (l1 c1 : Nat)
    (q : List yaml_outcome_t) (p : Option String) (l c : Nat) (node : y4c_node_t) :
    y4c_parse_sequence (f + 1) ⟨yaml_outcome_t.failure p1 l1 c1 :: q, p, l, c⟩ node =
      some (node, ⟨q, p1, l1, c1⟩) := by
  simp [y4c_parse_sequence, yaml_parser_parse]

theorem parse_mapping_spins (p : Option String) (l c : Nat) :
    ∀ (fuel : Nat) (node : y4c_node_t),
      y4c_parse_mapping fuel ⟨[], p, l, c⟩ node = none := by
  intro fuel
  induction fuel with
  | zero => intro node; simp [y4c_parse_mapping]
  | succ f ih =>
    intro node
    rcases parse_event_no_event f ⟨[], p, l, c⟩ with h | h
    · simp [y4c_parse_mapping, yaml_parser_parse, h]
    · simp [y4c_parse_mapping, yaml_parser_parse, h, ih]

theorem parse_mapping_failure (f : Nat) (p1 : Option String) (l1 c1 : Nat)
    (q : List yaml_outcome_t) (p : Option String) (l c : Nat) (node : y4c_node_t) :
    y4c_parse_mapping (f + 1) ⟨yaml_outcome_t.failure p1 l1 c1 :: q, p, l, c⟩ node =
      some (node, ⟨q, p1, l1, c1⟩) := by
  simp [y4c_parse_mapping, yaml_parser_parse]

theorem parse_mapping_key_spins (ke : yaml_event_t) (p : Option String) (l c : Nat)
    (hke : ke ≠ YAML_MAPPING_END_EVENT) (fuel : Nat) (node : y4c_node_t) :
    y4c_parse_mapping fuel ⟨[yaml_outcome_t.event ke], p, l, c⟩ node = none := by
  cases fuel with
  | zero => simp [y4c_parse_mapping]
  | succ f =>
    rcases parse_event_no_event f ⟨[], p, l, c⟩ with h | h
    · cases ke <;> first
        | exact absurd rfl hke
        | simp [y4c_parse_mapping, yaml_parser_parse, h]
    · cases ke <;> first
        | exact absurd rfl hke
        | simp [y4c_parse_mapping, yaml_parser_parse, h, parse_mapping_spins]

theorem parse_mapping_key_failure (f : Nat) (ke : yaml_event_t) (p1 : Option String)
    (l1 c1 : Nat) (q : List yaml_outcome_t) (p : Option String) (l c : Nat)
    (node : y4c_node_t) (hke : ke ≠ YAML_MAPPING_END_EVENT) :
    y4c_parse_mapping (f + 1)
        ⟨yaml_outcome_t.event ke :: yaml_outcome_t.failure p1 l1 c1 :: q, p, l, c⟩ node =
      some (node, ⟨q, p1, l1, c1⟩) := by
  cases ke <;> first | exact absurd rfl hke | simp [y4c_parse_mapping, yaml_parser_parse]

theorem parse_mapping_step_any (f : Nat) (ke ve : yaml_event_t) (q : List yaml_outcome_t)
    (p : Option String) (l c : Nat) (node : y4c_node_t) (hke : ke ≠ YAML_MAPPING_END_EVENT) :
    y4c_parse_mapping (f + 1)
        ⟨yaml_outcome_t.event ke :: yaml_outcome_t.event ve :: q, p, l, c⟩ node =
      match y4c_parse_event f ⟨q, p, l, c⟩ ve with
      | none => none
      | some (some child, parser) =>
        y4c_parse_mapping f parser (y4c_append_child node (attach_key (mapping_key ke) child))
      | some (none, parser) => y4c_parse_mapping f parser node := by
  cases ke <;> first
    | exact absurd rfl hke
    | simp [y4c_parse_mapping, yaml_parser_parse, attach_key, mapping_key]

theorem parse_event_leaf (e : yaml_event_t) (he1 : e ≠ YAML_SEQUENCE_START_EVENT)
    (he2 : e ≠ YAML_MAPPING_START_EVENT) (fuel : Nat) (parser : yaml_parser_t) :
    y4c_parse_event fuel parser e = none ∨
    ∃ r, y4c_parse_event fuel parser e = some (r, parser) := by
  cases fuel with
  | zero => exact Or.inl (by simp [y4c_parse_event])
  | succ f =>
    cases e <;> first
      | exact absurd rfl he1
      | exact absurd rfl he2
      | (right; simp [y4c_parse_event])

theorem parse_sequence_none_of_child (e : yaml_event_t) (q : List yaml_outcome_t)
    (p : Option String) (l c : Nat) (he : e ≠ YAML_SEQUENCE_END_EVENT)
    (h : ∀ f, y4c_parse_event f ⟨q, p, l, c⟩ e = none ∨
      ∃ r parser1, y4c_parse_event f ⟨q, p, l, c⟩ e = some (r, parser1) ∧
        ∀ g node1, y4c_parse_sequence g parser1 node1 = none) :
    ∀ (fuel : Nat) (node : y4c_node_t),
      y4c_parse_sequence fuel ⟨yaml_outcome_t.event e :: q, p, l, c⟩ node = none := by
  intro fuel node
  cases fuel with
  | zero => simp [y4c_parse_sequence]
  | succ f =>
    rw [parse_sequence_step f e q p l c node he]
    rcases h f with h1 | ⟨r, parser1, h1, h2⟩
    · simp [h1]
    · cases r <;> simp [h1, h2]

theorem parse_mapping_none_of_rest (ke ve : yaml_event_t) (q : List yaml_outcome_t)
    (p : Option String) (l c : Nat) (hke : ke ≠ YAML_MAPPING_END_EVENT)
    (hve1 : ve ≠ YAML_SEQUENCE_START_EVENT) (hve2 : ve ≠ YAML_MAPPING_START_EVENT)
    (h : ∀ g node1, y4c_parse_mapping g ⟨q, p, l, c⟩ node1 = none) :
    ∀ (fuel : Nat) (node : y4c_node_t),
      y4c_parse_mapping fuel
        ⟨yaml_outcome_t.event ke :: yaml_outcome_t.event ve :: q, p, l, c⟩ node = none := by
  intro fuel node
  cases fuel with
  | zero => simp [y4c_parse_mapping]
  | succ f =>
    rw [parse_mapping_step_any f ke ve q p l c node hke]
    rcases parse_event_leaf ve hve1 hve2 f ⟨q, p, l, c⟩ with h1 | ⟨r, h1⟩
    · simp [h1]
    · cases r <;> simp [h1, h]

theorem parse_event_none_of_sequence (parser : yaml_parser_t)
    (h : ∀ g node1, y4c_parse_sequence g parser node1 = none) (fuel : Nat) :
    y4c_parse_event fuel parser YAML_SEQUENCE_START_EVENT = none := by
  cases fuel with
  | zero => simp [y4c_parse_event]
  | succ f => simp [y4c_parse_event, h]

theorem parse_event_none_of_mapping (parser : yaml_parser_t)
    (h : ∀ g node1, y4c_parse_mapping g parser node1 = none) (fuel : Nat) :
    y4c_parse_event fuel parser YAML_MAPPING_START_EVENT = none := by
  cases fuel with
  | zero => simp [y4c_parse_event]
  | succ f => simp [y4c_parse_event, h]

theorem inner_sequence_breaks (p1 : Option String) (l1 c1 : Nat) (v : String)
    (p : Option String) (l c : Nat) (f : Nat) :
    y4c_parse_event f
        ⟨[yaml_outcome_t.event (YAML_SCALAR_EVENT v), yaml_outcome_t.failure p1 l1 c1],
          p, l, c⟩ YAML_SEQUENCE_START_EVENT = none ∨
    ∃ r parser1,
      y4c_parse_event f
          ⟨[yaml_outcome_t.event (YAML_SCALAR_EVENT v), yaml_outcome_t.failure p1 l1 c1],
            p, l, c⟩ YAML_SEQUENCE_START_EVENT = some (r, parser1) ∧
      ∀ g node1, y4c_parse_sequence g parser1 node1 = none := by
  rcases f with _ | _ | _ | f
  · exact Or.inl (by simp [y4c_parse_event])
  · exact Or.inl (by simp [y4c_parse_event, y4c_parse_sequence])
  · exact Or.inl (by simp [y4c_parse_event, y4c_parse_sequence, yaml_parser_parse])
  · refine Or.inr ⟨some (y4c_append_child (y4c_new_node Y4C_SEQUENCE)
      (y4c_set_value (y4c_new_node Y4C_SCALAR) v)), ⟨[], p1, l1, c1⟩, ?_,
      parse_sequence_spins p1 l1 c1⟩
    rw [y4c_parse_event, parse_sequence_step _ _ _ _ _ _ _ (by simp)]
    simp [y4c_parse_event, parse_sequence_failure]

/-- C18 (evaluation at the failing input): after the outer sequence-start of
`[[a, <failure>` the inner loop ends on the failure, but the outer loop then
reads empty events for ever: `y4c_parse_event` does not return, whatever the
fuel. -/
theorem nested_failure_never_returns (fuel : Nat) :
    y4c_parse_event fuel failing_in_nested_sequence YAML_SEQUENCE_START_EVENT = none :=
  parse_event_none_of_sequence _
    (parse_sequence_none_of_child YAML_SEQUENCE_START_EVENT _ none 0 0 (by simp)
      (inner_sequence_breaks _ 1 4 "a" none 0 0)) fuel

/-- C11 (evaluation at the failing inputs): a non-scalar key is not rejected.
With a sequence as first key the builder returns a Mapping holding the
element `a` and the value `v`, both without key; with a mapping as first key
the loop gets out of step, reads past the mapping-end and the stream-end, and
`y4c_parse_event` does not return, whatever the fuel. -/
theorem non_scalar_key_not_rejected :
    build_tree 16 sequence_as_key =
      some (some (y4c_node_t.mk Y4C_MAPPING none none
        [y4c_node_t.mk Y4C_SCALAR none (some "a") [],
         y4c_node_t.mk Y4C_SCALAR none (some "v") []]), producer_of []) ∧
    ∀ fuel : Nat, build_tree fuel mapping_as_key = none := by
  refine ⟨rfl, fun fuel => ?_⟩
  exact parse_event_none_of_mapping _
    (parse_mapping_none_of_rest _ _ _ none 0 0 (by simp) (by simp) (by simp)
      (parse_mapping_none_of_rest _ _ _ none 0 0 (by simp) (by simp) (by simp)
        (parse_mapping_none_of_rest _ _ _ none 0 0 (by simp) (by simp) (by simp)
          (parse_mapping_none_of_rest _ _ _ none 0 0 (by simp) (by simp) (by simp)
            (fun g node1 => parse_mapping_spins none 0 0 g node1))))) fuel

/-! ## Tree builder: invariants -/

theorem builder_invariant (Q S M : y4c_node_t → Prop)
    (hscalar : ∀ v, Q (y4c_set_value (y4c_new_node Y4C_SCALAR) v))
    (hseq0 : S (y4c_new_node Y4C_SEQUENCE)) (hmap0 : M (y4c_new_node Y4C_MAPPING))
    (hseq_step : ∀ node child, S node → Q child → S (y4c_append_child node child))
    (hmap_step : ∀ node child key, M node → Q child →
      M (y4c_append_child node (attach_key key child)))
    (hseq_done : ∀ node, S node → Q node) (hmap_done : ∀ node, M node → Q node) :
    ∀ (fuel : Nat),
      (∀ parser e node parser1,
        y4c_parse_event fuel parser e = some (some node, parser1) → Q node) ∧
      (∀ parser node node1 parser1, S node →
        y4c_parse_sequence fuel parser node = some (node1, parser1) → S node1) ∧
      (∀ parser node node1 parser1, M node →
        y4c_parse_mapping fuel parser node = some (node1, parser1) → M node1) := by
  intro fuel
  induction fuel with
  | zero =>
    refine ⟨fun _ _ _ _ h => ?_, fun _ _ _ _ _ h => ?_, fun _ _ _ _ _ h => ?_⟩
    · simp [y4c_parse_event] at h
    · simp [y4c_parse_sequence] at h
    · simp [y4c_parse_mapping] at h
  | succ f ih =>
    obtain ⟨ihe, ihs, ihm⟩ := ih
    refine ⟨?_, ?_, ?_⟩
    · intro parser e node parser1 h
      cases e with
      | YAML_SEQUENCE_START_EVENT =>
        simp only [y4c_parse_event] at h
        cases hloop : y4c_parse_sequence f parser (y4c_new_node Y4C_SEQUENCE) with
        | none => simp [hloop] at h
        | some r =>
          obtain ⟨node2, parser2⟩ := r
          simp only [hloop, Option.some.injEq, Prod.mk.injEq] at h
          obtain ⟨h1, _⟩ := h
          subst h1
          exact hseq_done _ (ihs parser _ _ parser2 hseq0 hloop)
      | YAML_MAPPING_START_EVENT =>
        simp only [y4c_parse_event] at h
        cases hloop : y4c_parse_mapping f parser (y4c_new_node Y4C_MAPPING) with
        | none => simp [hloop] at h
        | some r =>
          obtain ⟨node2, parser2⟩ := r
          simp only [hloop, Option.some.injEq, Prod.mk.injEq] at h
          obtain ⟨h1, _⟩ := h
          subst h1
          exact hmap_done _ (ihm parser _ _ parser2 hmap0 hloop)
      | YAML_SCALAR_EVENT v =>
        simp only [y4c_parse_event, Option.some.injEq, Prod.mk.injEq] at h
        obtain ⟨h1, _⟩ := h
        subst h1
        exact hscalar v
      | _ => simp [y4c_parse_event] at h
    · intro parser node node1 parser1 hS h
      obtain ⟨pending, p, l, c⟩ := parser
      match pending with
      | [] =>
        rw [parse_sequence_spins] at h
        cases h
      | yaml_outcome_t.failure p1 l1 c1 :: q =>
        rw [parse_sequence_failure] at h
        simp only [Option.some.injEq, Prod.mk.injEq] at h
        exact h.1 ▸ hS
      | yaml_outcome_t.event e :: q =>
        by_cases he : e = YAML_SEQUENCE_END_EVENT
        · subst he
          rw [parse_sequence_end] at h
          simp only [Option.some.injEq, Prod.mk.injEq] at h
          exact h.1 ▸ hS
        · rw [parse_sequence_step f e q p l c node he] at h
          cases hev : y4c_parse_event f ⟨q, p, l, c⟩ e with
          | none => simp [hev] at h
          | some r =>
            obtain ⟨r1, parser2⟩ := r
            cases r1 with
            | none =>
              simp only [hev] at h
              exact ihs parser2 node node1 parser1 hS h
            | some child =>
              simp only [hev] at h
              exact ihs parser2 _ node1 parser1
                (hseq_step node child hS (ihe _ _ _ _ hev)) h
    · intro parser node node1 parser1 hM h
      obtain ⟨pending, p, l, c⟩ := parser
      match pending with
      | [] =>
        rw [parse_mapping_spins] at h
        cases h
      | yaml_outcome_t.failure p1 l1 c1 :: q =>
        rw [parse_mapping_failure] at h
        simp only [Option.some.injEq, Prod.mk.injEq] at h
        exact h.1 ▸ hM
      | yaml_outcome_t.event ke :: q =>
        by_cases hke : ke = YAML_MAPPING_END_EVENT
        · subst hke
          rw [parse_mapping_end] at h
          simp only [Option.some.injEq, Prod.mk.injEq] at h
          exact h.1 ▸ hM
        · match q with
          | [] =>
            rw [parse_mapping_key_spins ke p l c hke] at h
            cases h
          | yaml_outcome_t.failure p1 l1 c1 :: q1 =>
            rw [parse_mapping_key_failure f ke p1 l1 c1 q1 p l c node hke] at h
            simp only [Option.some.injEq, Prod.mk.injEq] at h
            exact h.1 ▸ hM
          | yaml_outcome_t.event ve :: q1 =>
            rw [parse_mapping_step_any f ke ve q1 p l c node hke] at h
            cases hev : y4c_parse_event f ⟨q1, p, l, c⟩ ve with
            | none => simp [hev] at h
            | some r =>
              obtain ⟨r1, parser2⟩ := r
              cases r1 with
              | none =>
                simp only [hev] at h
                exact ihm parser2 node node1 parser1 hM h
              | some child =>
                simp only [hev] at h
                exact ihm parser2 _ node1 parser1
                  (hmap_step node child _ hM (ihe _ _ _ _ hev)) h

theorem children_keys_ok_append (m : Bool) (a b : List y4c_node_t) :
    children_keys_ok m (a ++ b) = (children_keys_ok m a && children_keys_ok m b) := by
  induction a with
  | nil => simp [children_keys_ok]
  | cons x xs ih => simp [children_keys_ok, ih, Bool.and_assoc]

theorem shape_ok_all_append (a b : List y4c_node_t) :
    shape_ok_all (a ++ b) = (shape_ok_all a && shape_ok_all b) := by
  induction a with
  | nil => simp [shape_ok_all]
  | cons x xs ih => simp [shape_ok_all, ih, Bool.and_assoc]

theorem keys_only_in_mappings_attach (key : Option String) (child : y4c_node_t) :
    keys_only_in_mappings (attach_key key child) = keys_only_in_mappings child := by
  cases child
  cases key <;> simp [attach_key, y4c_set_key, keys_only_in_mappings, type_mk, children_mk]

theorem shape_ok_attach (key : Option String) (child : y4c_node_t) :
    shape_ok (attach_key key child) = shape_ok child := by
  cases child with
  | mk ty k v cs =>
    cases key with
    | none => rfl
    | some k1 => cases ty <;> simp [attach_key, y4c_set_key, shape_ok, type_mk, value_mk, children_mk]

theorem small_mapping_built :
    y4c_parse_event 16 small_mapping_events YAML_MAPPING_START_EVENT =
      some (some small_mapping, producer_of []) := by
  rfl

/-- C13: in every tree `y4c_parse_event` returns, whatever the fuel and the
producer, the root carries no key and keys sit only on direct children of
Mapping nodes, so every child of a Sequence node has no key; and on the events
of a well-formed tree, followed by anything, such a tree is returned once the
fuel reaches twice the number of its events. -/
theorem built_tree_keys (parser : yaml_parser_t) (e : yaml_event_t) :
    (∀ fuel node parser1, y4c_parse_event fuel parser e = some (some node, parser1) →
      node.key = none ∧ keys_only_in_mappings node = true) ∧
    (∀ (t : y4c_node_t) (rest : List yaml_outcome_t) (p : Option String) (l c fuel : Nat),
      well_formed t = true → 2 * (to_events t).length ≤ fuel →
      ∃ hd tl node, to_events t = hd :: tl ∧
        y4c_parse_event fuel ⟨tl.map yaml_outcome_t.event ++ rest, p, l, c⟩ hd =
          some (some node, ⟨rest, p, l, c⟩) ∧
        node.key = none ∧ keys_only_in_mappings node = true) := by
  have hinv : ∀ (parser : yaml_parser_t) (e : yaml_event_t) (fuel : Nat) (node : y4c_node_t)
      (parser1 : yaml_parser_t), y4c_parse_event fuel parser e = some (some node, parser1) →
      node.key = none ∧ keys_only_in_mappings node = true := by
    intro parser e fuel node parser1 h
    refine (builder_invariant
      (fun n => n.key = none ∧ keys_only_in_mappings n = true)
      (fun n => n.type = Y4C_SEQUENCE ∧ n.key = none ∧ keys_only_in_mappings n = true)
      (fun n => n.type = Y4C_MAPPING ∧ n.key = none ∧ keys_only_in_mappings n = true)
      (fun v => ⟨rfl, rfl⟩) ⟨rfl, rfl, rfl⟩ ⟨rfl, rfl, rfl⟩ ?_ ?_
      (fun n hn => ⟨hn.2.1, hn.2.2⟩) (fun n hn => ⟨hn.2.1, hn.2.2⟩) fuel).1 parser e node
      parser1 h
    · intro n child hn hc
      cases n with
      | mk ty k v cs =>
        simp only [type_mk, key_mk] at hn
        obtain ⟨hty, hk, hok⟩ := hn
        subst hty
        refine ⟨rfl, hk, ?_⟩
        simp only [keys_only_in_mappings] at hok
        simp only [y4c_append_child, type_mk, key_mk, value_mk, children_mk,
          keys_only_in_mappings, children_keys_ok_append, hok, children_keys_ok, hc.1, hc.2]
        decide
    · intro n child key hn hc
      cases n with
      | mk ty k v cs =>
        simp only [type_mk, key_mk] at hn
        obtain ⟨hty, hk, hok⟩ := hn
        subst hty
        refine ⟨rfl, hk, ?_⟩
        simp only [keys_only_in_mappings] at hok
        simp only [y4c_append_child, type_mk, key_mk, value_mk, children_mk,
          keys_only_in_mappings, children_keys_ok_append, hok, children_keys_ok,
          keys_only_in_mappings_attach, hc.2]
        simp
  refine ⟨hinv parser e, ?_⟩
  intro t rest p l c fuel hwf hfuel
  obtain ⟨hd, tl, hev, _, hparse⟩ := parse_event_to_events t hwf fuel rest p l c hfuel
  exact ⟨hd, tl, _, hev, hparse, hinv _ _ _ _ _ hparse⟩

theorem built_tree_keys_witness :
    small_mapping.key = none ∧ keys_only_in_mappings small_mapping = true :=
  (built_tree_keys small_mapping_events YAML_MAPPING_START_EVENT).1 16 small_mapping
    (producer_of []) small_mapping_built

/-- C19: every tree `y4c_parse_event` returns, whatever the fuel and the
producer, has the shape `shape_ok` at every node: the kind is Scalar, Sequence
or Mapping, never Null, a Scalar has no children and a Sequence or Mapping has
no value text; and on the events of a well-formed tree, followed by anything,
such a tree is returned once the fuel reaches twice the number of its events. -/
theorem built_tree_shape (parser : yaml_parser_t) (e : yaml_event_t) :
    (∀ fuel node parser1, y4c_parse_event fuel parser e = some (some node, parser1) →
      shape_ok node = true ∧ node.type ≠ Y4C_NULL) ∧
    (∀ (t : y4c_node_t) (rest : List yaml_outcome_t) (p : Option String) (l c fuel : Nat),
      well_formed t = true → 2 * (to_events t).length ≤ fuel →
      ∃ hd tl node, to_events t = hd :: tl ∧
        y4c_parse_event fuel ⟨tl.map yaml_outcome_t.event ++ rest, p, l, c⟩ hd =
          some (some node, ⟨rest, p, l, c⟩) ∧
        shape_ok node = true ∧ node.type ≠ Y4C_NULL) := by
  have hinv : ∀ (parser : yaml_parser_t) (e : yaml_event_t) (fuel : Nat) (node : y4c_node_t)
      (parser1 : yaml_parser_t), y4c_parse_event fuel parser e = some (some node, parser1) →
      shape_ok node = true ∧ node.type ≠ Y4C_NULL := by
    intro parser e fuel node parser1 h
    have hshape : shape_ok node = true := by
      refine (builder_invariant
        (fun n => shape_ok n = true)
        (fun n => n.type = Y4C_SEQUENCE ∧ n.value = none ∧ shape_ok_all n.children = true)
        (fun n => n.type = Y4C_MAPPING ∧ n.value = none ∧ shape_ok_all n.children = true)
        (fun v => rfl) ⟨rfl, rfl, rfl⟩ ⟨rfl, rfl, rfl⟩ ?_ ?_ ?_ ?_ fuel).1 parser e node
        parser1 h
      · intro n child hn hc
        cases n with
        | mk ty k v cs =>
          simp only [type_mk, value_mk, children_mk] at hn
          obtain ⟨hty, hv, hok⟩ := hn
          refine ⟨hty, hv, ?_⟩
          simp [y4c_append_child, children_mk, shape_ok_all_append, hok, shape_ok_all, hc]
      · intro n child key hn hc
        cases n with
        | mk ty k v cs =>
          simp only [type_mk, value_mk, children_mk] at hn
          obtain ⟨hty, hv, hok⟩ := hn
          refine ⟨hty, hv, ?_⟩
          simp [y4c_append_child, children_mk, shape_ok_all_append, hok, shape_ok_all,
            shape_ok_attach, hc]
      · intro n hn
        cases n with
        | mk ty k v cs =>
          simp only [type_mk, value_mk, children_mk] at hn
          obtain ⟨hty, hv, hok⟩ := hn
          subst hty hv
          simp [shape_ok, hok]
      · intro n hn
        cases n with
        | mk ty k v cs =>
          simp only [type_mk, value_mk, children_mk] at hn
          obtain ⟨hty, hv, hok⟩ := hn
          subst hty hv
          simp [shape_ok, hok]
    refine ⟨hshape, ?_⟩
    intro hnull
    cases node with
    | mk ty k v cs =>
      simp only [type_mk] at hnull
      subst hnull
      simp [shape_ok] at hshape
  refine ⟨hinv parser e, ?_⟩
  intro t rest p l c fuel hwf hfuel
  obtain ⟨hd, tl, hev, _, hparse⟩ := parse_event_to_events t hwf fuel rest p l c hfuel
  exact ⟨hd, tl, _, hev, hparse, hinv _ _ _ _ _ hparse⟩

theorem built_tree_shape_witness :
    shape_ok small_mapping = true ∧ small_mapping.type ≠ Y4C_NULL :=
  (built_tree_shape small_mapping_events YAML_MAPPING_START_EVENT).1 16 small_mapping
    (producer_of []) small_mapping_built

/-! ## Tree builder: unsupported events -/

theorem parse_event_unsupported (f : Nat) (parser : yaml_parser_t) (e : yaml_event_t)
    (he : is_supported e = false) : y4c_parse_event (f + 1) parser e = some (none, parser) := by
  cases e <;> simp [is_supported] at he <;> simp [y4c_parse_event]

theorem parse_sequence_items : ∀ (items : List sequence_item_t),
    (∀ i ∈ items, sequence_item_ok i = true) →
    ∀ (fuel : Nat) (node : y4c_node_t) (rest : List yaml_outcome_t) (p : Option String)
      (l c : Nat), 2 * (sequence_items_events items).length + 1 ≤ fuel →
      y4c_parse_sequence fuel
          ⟨(sequence_items_events items).map yaml_outcome_t.event ++
            yaml_outcome_t.event YAML_SEQUENCE_END_EVENT :: rest, p, l, c⟩ node =
        some (y4c_node_t.mk node.type node.key node.value
          (node.children ++ sequence_items_nodes items), ⟨rest, p, l, c⟩)
  | [], _, fuel, node, rest, p, l, c, hf => by
    obtain ⟨f, rfl⟩ : ∃ f, fuel = f + 1 := ⟨fuel - 1, by omega⟩
    cases node
    simp [sequence_items_events, sequence_items_nodes, parse_sequence_end, type_mk, key_mk,
      value_mk, children_mk]
  | sequence_item_t.element t :: items, hok, fuel, node, rest, p, l, c, hf => by
    have ht := hok _ (List.mem_cons_self _ _)
    have hitems : ∀ i ∈ items, sequence_item_ok i = true :=
      fun i hi => hok i (List.mem_cons_of_mem _ hi)
    simp only [sequence_item_ok, Bool.and_eq_true, Option.isNone_iff_eq_none] at ht
    obtain ⟨hwf, hkey⟩ := ht
    simp only [sequence_items_events, List.length_append] at hf
    obtain ⟨f, rfl⟩ : ∃ f, fuel = f + 1 := ⟨fuel - 1, by omega⟩
    obtain ⟨hd, tl, hev, hne, hparse⟩ := parse_event_to_events t hwf f
      ((sequence_items_events items).map yaml_outcome_t.event ++
        yaml_outcome_t.event YAML_SEQUENCE_END_EVENT :: rest) p l c (by omega)
    have hlen : (to_events t).length = tl.length + 1 := by rw [hev]; rfl
    have ht_eq : y4c_node_t.mk t.type none t.value t.children = t := by
      cases t
      simp only [key_mk] at hkey
      simp [type_mk, value_mk, children_mk, hkey]
    have hrec := parse_sequence_items items hitems f
      (y4c_append_child node (y4c_node_t.mk t.type none t.value t.children)) rest p l c
      (by omega)
    simp only [sequence_items_events, hev, List.cons_append, List.map_cons, List.map_append,
      List.append_assoc]
    rw [parse_sequence_step f hd _ p l c node hne, hparse]
    simp only [hrec]
    cases node
    simp [y4c_append_child, ht_eq, sequence_items_nodes, type_mk, key_mk, value_mk,
      children_mk]
  | sequence_item_t.unsupported e :: items, hok, fuel, node, rest, p, l, c, hf => by
    have he := hok _ (List.mem_cons_self _ _)
    have hitems : ∀ i ∈ items, sequence_item_ok i = true :=
      fun i hi => hok i (List.mem_cons_of_mem _ hi)
    simp only [sequence_item_ok, Bool.and_eq_true, Bool.not_eq_true', decide_eq_true_eq] at he
    obtain ⟨hun, hne⟩ := he
    simp only [sequence_items_events, List.length_cons] at hf
    obtain ⟨f, rfl⟩ : ∃ f, fuel = f + 1 + 1 := ⟨fuel - 2, by omega⟩
    have hrec := parse_sequence_items items hitems (f + 1) node rest p l c (by omega)
    simp only [sequence_items_events, List.map_cons, List.cons_append]
    rw [parse_sequence_step (f + 1) e _ p l c node hne, parse_event_unsupported f _ e hun]
    simp only [hrec, sequence_items_nodes]

theorem parse_mapping_items : ∀ (items : List mapping_item_t),
    (∀ i ∈ items, mapping_item_ok i = true) →
    ∀ (fuel : Nat) (node : y4c_node_t) (rest : List yaml_outcome_t) (p : Option String)
      (l c : Nat), 2 * (mapping_items_events items).length + 1 ≤ fuel →
      y4c_parse_mapping fuel
          ⟨(mapping_items_events items).map yaml_outcome_t.event ++
            yaml_outcome_t.event YAML_MAPPING_END_EVENT :: rest, p, l, c⟩ node =
        some (y4c_node_t.mk node.type node.key node.value
          (node.children ++ mapping_items_nodes items), ⟨rest, p, l, c⟩)
  | [], _, fuel, node, rest, p, l, c, hf => by
    obtain ⟨f, rfl⟩ : ∃ f, fuel = f + 1 := ⟨fuel - 1, by omega⟩
    cases node
    simp [mapping_items_events, mapping_items_nodes, parse_mapping_end, type_mk, key_mk,
      value_mk, children_mk]
  | mapping_item_t.entry t :: items, hok, fuel, node, rest, p, l, c, hf => by
    have ht := hok _ (List.mem_cons_self _ _)
    have hitems : ∀ i ∈ items, mapping_item_ok i = true :=
      fun i hi => hok i (List.mem_cons_of_mem _ hi)
    simp only [mapping_item_ok, Bool.and_eq_true, Option.isSome_iff_exists] at ht
    obtain ⟨hwf, k, hkey⟩ := ht
    simp only [mapping_items_events, List.length_cons, List.length_append] at hf
    obtain ⟨f, rfl⟩ : ∃ f, fuel = f + 1 := ⟨fuel - 1, by omega⟩
    obtain ⟨hd, tl, hev, _, hparse⟩ := parse_event_to_events t hwf f
      ((mapping_items_events items).map yaml_outcome_t.event ++
        yaml_outcome_t.event YAML_MAPPING_END_EVENT :: rest) p l c (by omega)
    have hlen : (to_events t).length = tl.length + 1 := by rw [hev]; rfl
    have ht_eq : y4c_set_key (y4c_node_t.mk t.type none t.value t.children) k = t := by
      cases t
      simp only [key_mk] at hkey
      simp [y4c_set_key, type_mk, value_mk, children_mk, hkey]
    have hrec := parse_mapping_items items hitems f
      (y4c_append_child node (y4c_set_key (y4c_node_t.mk t.type none t.value t.children) k))
      rest p l c (by omega)
    simp only [mapping_items_events, hev, hkey, Option.getD_some, List.cons_append,
      List.map_cons, List.map_append, List.append_assoc]
    rw [parse_mapping_step f k hd _ p l c node, hparse]
    simp only [hrec]
    cases node
    simp [y4c_append_child, ht_eq, mapping_items_nodes, type_mk, key_mk, value_mk,
      children_mk]
  | mapping_item_t.unsupported k e :: items, hok, fuel, node, rest, p, l, c, hf => by
    have he := hok _ (List.mem_cons_self _ _)
    have hitems : ∀ i ∈ items, mapping_item_ok i = true :=
      fun i hi => hok i (List.mem_cons_of_mem _ hi)
    simp only [mapping_item_ok, Bool.not_eq_true'] at he
    simp only [mapping_items_events, List.length_cons] at hf
    obtain ⟨f, rfl⟩ : ∃ f, fuel = f + 1 + 1 := ⟨fuel - 2, by omega⟩
    have hrec := parse_mapping_items items hitems (f + 1) node rest p l c (by omega)
    simp only [mapping_items_events, List.map_cons, List.cons_append]
    rw [parse_mapping_step (f + 1) k e _ p l c node, parse_event_unsupported f _ e he]
    simp only [hrec, mapping_items_nodes]

/-- C20: a sequence element of an unsupported kind is skipped, and a mapping
entry whose value event is of an unsupported kind is dropped together with
its key.  The container built holds exactly the supported children, in their
original order, so `y4c_at` counts the supported elements only and later
elements sit at lower indices. -/
theorem unsupported_items_dropped :
    (∀ (items : List sequence_item_t) (fuel : Nat),
      (∀ i ∈ items, sequence_item_ok i = true) →
      2 * (sequence_items_events items).length + 2 ≤ fuel →
      build_tree fuel
          (YAML_SEQUENCE_START_EVENT ::
            (sequence_items_events items ++ [YAML_SEQUENCE_END_EVENT])) =
        some (some (y4c_node_t.mk Y4C_SEQUENCE none none (sequence_items_nodes items)),
          producer_of []) ∧
      ∀ n : Nat,
        y4c_at (some (y4c_node_t.mk Y4C_SEQUENCE none none (sequence_items_nodes items)))
          (n : Int) = (sequence_items_nodes items)[n]?) ∧
    (∀ (items : List mapping_item_t) (fuel : Nat),
      (∀ i ∈ items, mapping_item_ok i = true) →
      2 * (mapping_items_events items).length + 2 ≤ fuel →
      build_tree fuel
          (YAML_MAPPING_START_EVENT ::
            (mapping_items_events items ++ [YAML_MAPPING_END_EVENT])) =
        some (some (y4c_node_t.mk Y4C_MAPPING none none (mapping_items_nodes items)),
          producer_of [])) := by
  constructor
  · intro items fuel hok hfuel
    constructor
    · obtain ⟨f, rfl⟩ : ∃ f, fuel = f + 1 := ⟨fuel - 1, by omega⟩
      have h := parse_sequence_items items hok f (y4c_new_node Y4C_SEQUENCE) [] none 0 0
        (by omega)
      simp only [build_tree, producer_of, yaml_parser_initialize, map_event_append_singleton,
        List.map_append, List.map_cons, List.map_nil, y4c_parse_event]
      simp only [List.map_append, List.map_cons, List.map_nil] at h
      rw [h]
      simp [y4c_new_node, type_mk, key_mk, value_mk, children_mk]
    · intro n
      have h0 : ¬ ((n : Int) < 0) := by omega
      simp only [y4c_at, type_mk, children_mk, ne_eq, not_true_eq_false, h0, or_self,
        if_false]
      have := y4c_at_loop_nat 0 (sequence_items_nodes items) n
      simpa using this
  · intro items fuel hok hfuel
    obtain ⟨f, rfl⟩ : ∃ f, fuel = f + 1 := ⟨fuel - 1, by omega⟩
    have h := parse_mapping_items items hok f (y4c_new_node Y4C_MAPPING) [] none 0 0
      (by omega)
    simp only [build_tree, producer_of, yaml_parser_initialize, map_event_append_singleton,
      List.map_append, List.map_cons, List.map_nil, y4c_parse_event]
    simp only [List.map_append, List.map_cons, List.map_nil] at h
    rw [h]
    simp [y4c_new_node, type_mk, key_mk, value_mk, children_mk]

theorem unsupported_items_dropped_witness :
    (build_tree 8
        (YAML_SEQUENCE_START_EVENT ::
          (sequence_items_events items_with_alias ++ [YAML_SEQUENCE_END_EVENT])) =
      some (some (y4c_node_t.mk Y4C_SEQUENCE none none [scalar_node "a", scalar_node "b"]),
        producer_of []) ∧
      y4c_at (some (y4c_node_t.mk Y4C_SEQUENCE none none [scalar_node "a", scalar_node "b"]))
        ((1 : Nat) : Int) = some (scalar_node "b")) ∧
    build_tree 14
        (YAML_MAPPING_START_EVENT ::
          (mapping_items_events entries_with_alias ++ [YAML_MAPPING_END_EVENT])) =
      some (some (y4c_node_t.mk Y4C_MAPPING none none
        [y4c_node_t.mk Y4C_SCALAR (some "k1") (some "v1") [],
         y4c_node_t.mk Y4C_SCALAR (some "k3") (some "v3") []]), producer_of []) :=
  ⟨⟨(unsupported_items_dropped.1 items_with_alias 8 (by decide) (by decide)).1,
    (unsupported_items_dropped.1 items_with_alias 8 (by decide) (by decide)).2 1⟩,
   unsupported_items_dropped.2 entries_with_alias 14 (by decide) (by decide)⟩

end Yaml4c
